import Mathlib

/-!
# Verification of the echo dispatch core

A shallow embedding, in Lean 4, of the stream-parsing, agent-loop, tool and
conversation-replay code of the `echo` chat client, together with theorems
settling the specification claims about that code.

Modelling conventions:
* Rust `String`/`&str` values are `List Char`; raw byte chunks are `List Nat`
  (each entry < 256).
* `i64` becomes `Int`, `u32`/`usize` become `Nat`.
* `serde_json::Value` becomes the `Json` inductive below; `serde_json::from_str`
  becomes `jsonParse`, an exact-decimal JSON reader (numbers are kept as
  `mantissa × 10 ^ exp10`, which is faithful for every integer field the code
  reads).
* Asynchronous channels are replaced by explicit scripts/queues: a provider
  stream is the list of events the spawned task would push, the approval
  channel is a list of decisions, and the cooperative cancellation token is a
  poll-count threshold (the token is observed at exactly the points the code
  polls or races it, and it is monotone: once triggered it stays triggered).
* Event sends to the UI sink are modelled as always succeeding (the receiver
  stays alive); the claims under study do not concern a dropped receiver.
-/

/-! ## Text helpers (List Char forms of the `str` operations the code uses) -/

/-- One step of Rust `String::replace("\r\n", "\n")`: left-to-right,
non-overlapping. Applied per decoded chunk, exactly as the code does. -/
def replaceCrlf : List Char → List Char
  | '\r' :: '\n' :: rest => '\n' :: replaceCrlf rest
  | c :: rest => c :: replaceCrlf rest
  | [] => []

/-- Does `l` start with `pat`? (Rust `str::starts_with` / `strip_prefix` test.) -/
def listStartsWith : List Char → List Char → Bool
  | p :: ps, c :: cs => p == c && listStartsWith ps cs
  | [], _ => true
  | _, _ => false

/-- Rust `str::split_inclusive('\n')`: segments keep their trailing newline;
no empty trailing segment is produced. -/
def splitInclNewline : List Char → List (List Char)
  | [] => []
  | c :: cs =>
    if c == '\n' then ['\n'] :: splitInclNewline cs
    else match splitInclNewline cs with
      | [] => [[c]]
      | seg :: rest =>
        if seg.headD ' ' == '\n' && seg.length == 1 then
          -- current segment ended right here
          (c :: ['\n']) :: rest
        else (c :: seg) :: rest

/-- Drop a trailing `'\n'`, and then a trailing `'\r'` only when the `'\n'`
was present — the semantics of Rust `str::lines` per segment: a carriage
return not followed by a line feed stays in the line. -/
def chopLineEnding (seg : List Char) : List Char :=
  match seg.reverse with
  | '\n' :: rest =>
    match rest with
    | '\r' :: rest2 => rest2.reverse
    | _ => rest.reverse
  | _ => seg

/-- Rust `str::lines`. -/
def rustLines (s : List Char) : List (List Char) :=
  (splitInclNewline s).map chopLineEnding

/-- Leftmost occurrence of `"\n\n"`: returns the text before it and the text
after it (both newlines dropped), mirroring `buffer.find("\n\n")` followed by
`buffer.drain(..event_end + 2)`. -/
def splitFirstDoubleNewline : List Char → Option (List Char × List Char)
  | '\n' :: '\n' :: rest => some ([], rest)
  | c :: cs =>
    match splitFirstDoubleNewline cs with
    | some (a, b) => some (c :: a, b)
    | none => none
  | [] => none

def extractFramesAux : Nat → List Char → List (List Char) × List Char
  | 0, buf => ([], buf)
  | fuel + 1, buf =>
    match splitFirstDoubleNewline buf with
    | some (frame, rest) =>
      let (frames, leftover) := extractFramesAux fuel rest
      (frame :: frames, leftover)
    | none => ([], buf)

/-- The `while let Some(event_end) = buffer.find("\n\n")` loop: every complete
blank-line-delimited frame, plus the still-buffered partial frame. -/
def extractFrames (buf : List Char) : List (List Char) × List Char :=
  extractFramesAux (buf.length + 1) buf

/-- Rust `str::trim` restricted to ASCII whitespace as it appears in SSE
payloads (space, tab, CR, LF). -/
def isWsChar (c : Char) : Bool :=
  [' ', '\t', '\n', '\r'].contains c

def trimChars (s : List Char) : List Char :=
  ((s.dropWhile isWsChar).reverse.dropWhile isWsChar).reverse

/-- `line.strip_prefix("data: ")` / `line.strip_prefix("data:")` fallback:
the payload carried by a `data`-line, or `none` for other lines. -/
def dataPayloadOfLine (line : List Char) : Option (List Char) :=
  if listStartsWith "data: ".data line then some (line.drop 6)
  else if listStartsWith "data:".data line then some (line.drop 5)
  else none

/-! ## JSON (the fragment of `serde_json` the stream parsers rely on) -/

/-- `serde_json::Value`, with numbers kept as exact decimals
`mantissa × 10 ^ exp10`. Object fields keep their textual order. -/
inductive Json where
  | null
  | bool (b : Bool)
  | num (mantissa : Int) (exp10 : Int)
  | str (s : List Char)
  | arr (items : List Json)
  | obj (fields : List (List Char × Json))

def jsonLBrace : Char := Char.ofNat 123
def jsonRBrace : Char := Char.ofNat 125

def isJsonDigit (c : Char) : Bool := c.toNat ≥ 48 && c.toNat ≤ 57

def digitVal (c : Char) : Nat := c.toNat - 48

def digitsToNat (ds : List Char) : Nat :=
  ds.foldl (fun acc c => acc * 10 + digitVal c) 0

def hexVal (c : Char) : Option Nat :=
  let n := c.toNat
  if isJsonDigit c then some (digitVal c)
  else if n ≥ 97 && n ≤ 102 then some (n - 87)
  else if n ≥ 65 && n ≤ 70 then some (n - 55)
  else none

def skipWs (s : List Char) : List Char := s.dropWhile isWsChar

/-- Body of a JSON string literal (after the opening quote), with the escape
set serde_json accepts; unescaped control characters and lone surrogates are
errors. Returns the decoded text and the input after the closing quote. -/
def parseStringBody : Nat → List Char → Option (List Char × List Char)
  | 0, _ => none
  | _, [] => none
  | fuel + 1, c :: cs =>
    if c == '"' then some ([], cs)
    else if c == '\\' then
      match cs with
      | [] => none
      | e :: cs2 =>
        let simpleEsc : Option Char :=
          if e == '"' then some '"'
          else if e == '\\' then some '\\'
          else if e == '/' then some '/'
          else if e == 'b' then some (Char.ofNat 8)
          else if e == 'f' then some (Char.ofNat 12)
          else if e == 'n' then some '\n'
          else if e == 'r' then some '\r'
          else if e == 't' then some '\t'
          else none
        match simpleEsc with
        | some d =>
          match parseStringBody fuel cs2 with
          | some (rest, rem) => some (d :: rest, rem)
          | none => none
        | none =>
          if e == 'u' then
            match cs2 with
            | h1 :: h2 :: h3 :: h4 :: cs3 =>
              match hexVal h1, hexVal h2, hexVal h3, hexVal h4 with
              | some v1, some v2, some v3, some v4 =>
                let cp := ((v1 * 16 + v2) * 16 + v3) * 16 + v4
                if 0xD800 ≤ cp && cp ≤ 0xDBFF then
                  -- high surrogate: a low surrogate escape must follow
                  match cs3 with
                  | '\\' :: 'u' :: g1 :: g2 :: g3 :: g4 :: cs4 =>
                    match hexVal g1, hexVal g2, hexVal g3, hexVal g4 with
                    | some w1, some w2, some w3, some w4 =>
                      let lo := ((w1 * 16 + w2) * 16 + w3) * 16 + w4
                      if 0xDC00 ≤ lo && lo ≤ 0xDFFF then
                        let scalar := 0x10000 + (cp - 0xD800) * 0x400 + (lo - 0xDC00)
                        match parseStringBody fuel cs4 with
                        | some (rest, rem) => some (Char.ofNat scalar :: rest, rem)
                        | none => none
                      else none
                    | _, _, _, _ => none
                  | _ => none
                else if 0xDC00 ≤ cp && cp ≤ 0xDFFF then none
                else
                  match parseStringBody fuel cs3 with
                  | some (rest, rem) => some (Char.ofNat cp :: rest, rem)
                  | none => none
              | _, _, _, _ => none
            | _ => none
          else none
    else if c.toNat < 0x20 then none
    else
      match parseStringBody fuel cs with
      | some (rest, rem) => some (c :: rest, rem)
      | none => none

/-- JSON number: `-? (0 | [1-9][0-9]*) (. [0-9]+)? ([eE][+-]?[0-9]+)?`. -/
def parseNumber (s : List Char) : Option (Json × List Char) :=
  let (neg, s1) : Bool × List Char :=
    match s with
    | '-' :: rest => (true, rest)
    | _ => (false, s)
  let intDigits := s1.takeWhile isJsonDigit
  let s2 := s1.drop intDigits.length
  if intDigits.isEmpty then none
  else if intDigits.length > 1 && intDigits.headD '0' == '0' then none
  else
    let (fracDigits, s3) : List Char × List Char :=
      match s2 with
      | '.' :: rest => (rest.takeWhile isJsonDigit, rest.drop (rest.takeWhile isJsonDigit).length)
      | _ => ([], s2)
    match s2 with
    | '.' :: rest =>
      if (rest.takeWhile isJsonDigit).isEmpty then none
      else parseNumberExp neg intDigits fracDigits s3
    | _ => parseNumberExp neg intDigits fracDigits s3
where
  parseNumberExp (neg : Bool) (intDigits fracDigits : List Char) (s : List Char) :
      Option (Json × List Char) :=
    let mag : Nat := digitsToNat (intDigits ++ fracDigits)
    let m : Int := if neg then -(mag : Int) else (mag : Int)
    let baseExp : Int := -(fracDigits.length : Int)
    match s with
    | e :: rest =>
      if e == 'e' || e == 'E' then
        let (esign, r1) : Int × List Char :=
          match rest with
          | '+' :: r => (1, r)
          | '-' :: r => (-1, r)
          | _ => (1, rest)
        let eDigits := r1.takeWhile isJsonDigit
        if eDigits.isEmpty then none
        else some (Json.num m (baseExp + esign * (digitsToNat eDigits : Int)),
                   r1.drop eDigits.length)
      else some (Json.num m baseExp, s)
    | [] => some (Json.num m baseExp, s)

mutual

/-- One JSON value (leading whitespace allowed), returning the rest of the
input. Fuel only bounds recursion depth/width and is chosen large enough by
`jsonParse`. -/
def parseVal : Nat → List Char → Option (Json × List Char)
  | 0, _ => none
  | fuel + 1, s0 =>
    match skipWs s0 with
    | [] => none
    | c :: cs =>
      if c == '"' then
        match parseStringBody (cs.length + 1) cs with
        | some (txt, rem) => some (Json.str txt, rem)
        | none => none
      else if c == jsonLBrace then
        match parseObjRest fuel (skipWs cs) true with
        | some (fields, rem) => some (Json.obj fields, rem)
        | none => none
      else if c == '[' then
        match parseArrRest fuel (skipWs cs) true with
        | some (items, rem) => some (Json.arr items, rem)
        | none => none
      else if c == 't' then
        if listStartsWith "rue".data cs then some (Json.bool true, cs.drop 3) else none
      else if c == 'f' then
        if listStartsWith "alse".data cs then some (Json.bool false, cs.drop 4) else none
      else if c == 'n' then
        if listStartsWith "ull".data cs then some (Json.null, cs.drop 3) else none
      else parseNumber (c :: cs)

/-- Array items after `[` (whitespace already skipped); `first` is true when a
closing bracket may come immediately (empty array). No trailing commas. -/
def parseArrRest : Nat → List Char → Bool → Option (List Json × List Char)
  | 0, _, _ => none
  | fuel + 1, s, first =>
    match s with
    | ']' :: cs =>
      if first then some ([], cs)
      else parseArrElem fuel s
    | _ => parseArrElem fuel s

/-- One array element followed by `,` or `]`. -/
def parseArrElem : Nat → List Char → Option (List Json × List Char)
  | 0, _ => none
  | fuel + 1, s =>
    match parseVal fuel s with
    | some (v, rem) =>
      match skipWs rem with
      | ']' :: cs => some ([v], cs)
      | ',' :: cs =>
        match parseArrRest fuel (skipWs cs) false with
        | some (vs, r) => some (v :: vs, r)
        | none => none
      | _ => none
    | none => none

/-- Object fields after the opening brace (whitespace already skipped). -/
def parseObjRest : Nat → List Char → Bool → Option (List (List Char × Json) × List Char)
  | 0, _, _ => none
  | fuel + 1, s, first =>
    match s with
    | c :: cs =>
      if c == jsonRBrace && first then some ([], cs)
      else parseObjField fuel (c :: cs)
    | [] => none

/-- One `"key": value` field followed by `,` or the closing brace. -/
def parseObjField : Nat → List Char → Option (List (List Char × Json) × List Char)
  | 0, _ => none
  | fuel + 1, s =>
    match s with
    | '"' :: cs =>
      match parseStringBody (cs.length + 1) cs with
      | some (key, rem) =>
        match skipWs rem with
        | ':' :: cs2 =>
          match parseVal fuel cs2 with
          | some (v, rem2) =>
            match skipWs rem2 with
            | c :: cs3 =>
              if c == jsonRBrace then some ([(key, v)], cs3)
              else if c == ',' then
                match parseObjRest fuel (skipWs cs3) false with
                | some (fs, r) => some ((key, v) :: fs, r)
                | none => none
              else none
            | [] => none
          | none => none
        | _ => none
      | none => none
    | _ => none

end

/-- `serde_json::from_str`: one JSON document, surrounding whitespace allowed,
nothing but whitespace may follow. -/
def jsonParse (s : List Char) : Option Json :=
  match parseVal (2 * s.length + 4) s with
  | some (v, rem) => if (skipWs rem).isEmpty then some v else none
  | none => none

/-- The empty JSON object substituted for unparseable tool arguments
(`serde_json::Value::Object(Default::default())`). -/
def Json.emptyObj : Json := Json.obj []

/-! ### Field access, mirroring serde's derived deserializers -/

def Json.lookup : Json → List Char → Option Json
  | Json.obj fields, k =>
    match fields.find? (fun f => f.1 == k) with
    | some f => some f.2
    | none => none
  | _, _ => none

def Json.asStr : Json → Option (List Char)
  | Json.str s => some s
  | _ => none

/-- Deserializing an `i64`: serde accepts only integer-shaped numbers. -/
def Json.asInt : Json → Option Int
  | Json.num m e => if e == 0 then some m else none
  | _ => none

/-- Deserializing a `u32`. -/
def Json.asNat : Json → Option Nat
  | Json.num m e => if e == 0 && 0 ≤ m then some m.toNat else none
  | _ => none

/-- A required struct field: missing or ill-typed ⇒ the whole payload fails. -/
def reqField (j : Json) (k : List Char) (f : Json → Option α) : Option α :=
  match j.lookup k with
  | some v => f v
  | none => none

/-- An `Option<T>` struct field: missing or `null` ⇒ `none`; present but
ill-typed ⇒ the whole payload fails (serde's behaviour). -/
def optField (j : Json) (k : List Char) (f : Json → Option α) : Option (Option α) :=
  match j.lookup k with
  | none => some none
  | some Json.null => some none
  | some v =>
    match f v with
    | some x => some (some x)
    | none => none

/-! ## UTF-8 incremental decoding (`std::str::from_utf8` + `valid_up_to`) -/

def isContByte (b : Nat) : Bool := 0x80 ≤ b && b ≤ 0xBF

/-- Decode one UTF-8 scalar from the front, or `none` when the head is an
invalid or incomplete sequence. -/
def utf8DecodeOne : List Nat → Option (Char × List Nat)
  | [] => none
  | b :: rest =>
    if b < 0x80 then some (Char.ofNat b, rest)
    else if 0xC2 ≤ b && b ≤ 0xDF then
      match rest with
      | b2 :: r2 =>
        if isContByte b2 then some (Char.ofNat ((b - 0xC0) * 64 + (b2 - 0x80)), r2)
        else none
      | [] => none
    else if 0xE0 ≤ b && b ≤ 0xEF then
      match rest with
      | b2 :: b3 :: r3 =>
        let okB2 :=
          if b == 0xE0 then 0xA0 ≤ b2 && b2 ≤ 0xBF
          else if b == 0xED then 0x80 ≤ b2 && b2 ≤ 0x9F
          else isContByte b2
        if okB2 && isContByte b3 then
          some (Char.ofNat ((b - 0xE0) * 4096 + (b2 - 0x80) * 64 + (b3 - 0x80)), r3)
        else none
      | _ => none
    else if 0xF0 ≤ b && b ≤ 0xF4 then
      match rest with
      | b2 :: b3 :: b4 :: r4 =>
        let okB2 :=
          if b == 0xF0 then 0x90 ≤ b2 && b2 ≤ 0xBF
          else if b == 0xF4 then 0x80 ≤ b2 && b2 ≤ 0x8F
          else isContByte b2
        if okB2 && isContByte b3 && isContByte b4 then
          some (Char.ofNat ((b - 0xF0) * 262144 + (b2 - 0x80) * 4096 +
                            (b3 - 0x80) * 64 + (b4 - 0x80)), r4)
        else none
      | _ => none
    else none

def utf8DecodeLongestAux : Nat → List Nat → List Char × List Nat
  | 0, bs => ([], bs)
  | fuel + 1, bs =>
    match utf8DecodeOne bs with
    | some (c, rest) =>
      let (cs, rem) := utf8DecodeLongestAux fuel rest
      (c :: cs, rem)
    | none => ([], bs)

/-- The longest valid UTF-8 prefix (`valid_up_to`) of the byte buffer, decoded,
plus the re-buffered remainder. Bytes that can never become valid simply stay
in the buffer, exactly as in the code. -/
def utf8DecodeLongest (bs : List Nat) : List Char × List Nat :=
  utf8DecodeLongestAux (bs.length + 1) bs

/-! ## Shared per-chunk SSE buffering (identical in all three parsers) -/

/-- The `byte_buf` / `buffer` pair every parser maintains. -/
structure SseBuf where
  byteBuf : List Nat
  buffer : List Char

def SseBuf.init : SseBuf := ⟨[], []⟩

/-- One loop iteration of the byte layer: append the chunk, decode the longest
valid UTF-8 prefix, normalize CRLF *within the decoded piece only* (as
`decoded.replace("\r\n", "\n")` does), then extract complete frames. -/
def SseBuf.feedChunk (st : SseBuf) (bytes : List Nat) : SseBuf × List (List Char) :=
  let (cs, rem) := utf8DecodeLongest (st.byteBuf ++ bytes)
  let chunk := replaceCrlf cs
  let (frames, leftover) := extractFrames (st.buffer ++ chunk)
  (⟨rem, leftover⟩, frames)

def SseBuf.feedChunksAux (st : SseBuf) : List (List Nat) → List (List Char)
  | [] => []
  | b :: bs =>
    let (st', frames) := st.feedChunk b
    frames ++ st'.feedChunksAux bs

/-- All complete frames the byte layer delivers for a given fragmentation of
the response body into chunks. A transport error in the chunk stream is
modelled separately (it truncates the chunk list and is reported by the
caller), since after an `Err` the Rust loop returns at once. -/
def sseFrames (chunks : List (List Nat)) : List (List Char) :=
  SseBuf.feedChunksAux SseBuf.init chunks

/-- The concatenated payload of the `data:`-lines of one frame (Claude and
Gemini parsers build one string; empty payloads are skipped by the callers). -/
def frameData (frame : List Char) : List Char :=
  (rustLines frame).foldl
    (fun acc line =>
      match dataPayloadOfLine line with
      | some p => acc ++ p
      | none => acc)
    []

/-! ## The normalized stream model (`providers/types.rs`) -/

inductive StopReason where
  | endTurn
  | toolUse
  | maxTokens
deriving DecidableEq, Repr

structure ToolCall where
  id : List Char
  name : List Char
  arguments : Json

structure ToolResult where
  callId : List Char
  content : List Char
  isError : Bool
deriving Repr

inductive StreamEvent where
  | token (text : List Char)
  | toolCallStart (id name : List Char)
  | toolCallDelta (id argumentsChunk : List Char)
  | toolCallComplete (call : ToolCall)
  | done (tokensIn tokensOut : Option Int) (stopReason : Option StopReason)
  | error (message : List Char)

/-! ## Claude stream parser (`providers/claude/stream.rs` + `models.rs`) -/

namespace Claude

structure Usage where
  inputTokens : Option Int
  outputTokens : Option Int

inductive RespBlock where
  | text (text : List Char)
  | toolUse (id name : List Char) (input : Json)

inductive Delta where
  | textDelta (text : List Char)
  | inputJsonDelta (partialJson : List Char)
  | other

structure MsgDelta where
  stopReason : Option (List Char)

structure StreamUsage where
  outputTokens : Option Int

structure StreamMessage where
  msgId : List Char
  model : List Char
  usage : Option Usage

/-- `ClaudeStreamEvent`. -/
inductive Event where
  | messageStart (message : StreamMessage)
  | contentBlockStart (index : Nat) (contentBlock : RespBlock)
  | contentBlockDelta (index : Nat) (delta : Delta)
  | contentBlockStop (index : Nat)
  | messageDelta (delta : MsgDelta) (usage : Option StreamUsage)
  | messageStop
  | ping
  | error (message : List Char)

def decodeUsage (j : Json) : Option Usage := do
  let ti ← optField j "input_tokens".data Json.asInt
  let tout ← optField j "output_tokens".data Json.asInt
  pure ⟨ti, tout⟩

def decodeRespBlock (j : Json) : Option RespBlock := do
  let tag ← reqField j "type".data Json.asStr
  if tag == "text".data then
    let t ← reqField j "text".data Json.asStr
    pure (RespBlock.text t)
  else if tag == "tool_use".data then
    let id ← reqField j "id".data Json.asStr
    let name ← reqField j "name".data Json.asStr
    let input ← reqField j "input".data (fun v => some v)
    pure (RespBlock.toolUse id name input)
  else none

def decodeDelta (j : Json) : Option Delta := do
  let tag ← reqField j "type".data Json.asStr
  if tag == "text_delta".data then
    let t ← reqField j "text".data Json.asStr
    pure (Delta.textDelta t)
  else if tag == "input_json_delta".data then
    let pj ← reqField j "partial_json".data Json.asStr
    pure (Delta.inputJsonDelta pj)
  else
    -- `#[serde(other)]` variant: any other tag becomes `Other`
    pure Delta.other

def decodeStreamMessage (j : Json) : Option StreamMessage := do
  let id ← reqField j "id".data Json.asStr
  let model ← reqField j "model".data Json.asStr
  let usage ← optField j "usage".data decodeUsage
  pure ⟨id, model, usage⟩

def decodeMsgDelta (j : Json) : Option MsgDelta := do
  let sr ← optField j "stop_reason".data Json.asStr
  pure ⟨sr⟩

def decodeStreamUsage (j : Json) : Option StreamUsage := do
  let tout ← optField j "output_tokens".data Json.asInt
  pure ⟨tout⟩

def decodeErrMessage (j : Json) : Option (List Char) :=
  reqField j "message".data Json.asStr

/-- `serde_json::from_str::<ClaudeStreamEvent>` after the JSON itself parsed:
internally tagged by `"type"`. -/
def decodeEvent (j : Json) : Option Event := do
  let tag ← reqField j "type".data Json.asStr
  if tag == "message_start".data then
    let m ← reqField j "message".data decodeStreamMessage
    pure (Event.messageStart m)
  else if tag == "content_block_start".data then
    let idx ← reqField j "index".data Json.asNat
    let cb ← reqField j "content_block".data decodeRespBlock
    pure (Event.contentBlockStart idx cb)
  else if tag == "content_block_delta".data then
    let idx ← reqField j "index".data Json.asNat
    let d ← reqField j "delta".data decodeDelta
    pure (Event.contentBlockDelta idx d)
  else if tag == "content_block_stop".data then
    let idx ← reqField j "index".data Json.asNat
    pure (Event.contentBlockStop idx)
  else if tag == "message_delta".data then
    let d ← reqField j "delta".data decodeMsgDelta
    let u ← optField j "usage".data decodeStreamUsage
    pure (Event.messageDelta d u)
  else if tag == "message_stop".data then
    pure Event.messageStop
  else if tag == "ping".data then
    pure Event.ping
  else if tag == "error".data then
    let e ← reqField j "error".data decodeErrMessage
    pure (Event.error e)
  else none

/-- The parser's mutable locals: accumulated usage/stop-reason plus the single
current tool-call accumulator (`current_tool_id/_name/_json`). -/
structure State where
  tokensIn : Option Int
  tokensOut : Option Int
  stopReason : Option StopReason
  currentToolId : Option (List Char)
  currentToolName : Option (List Char)
  currentToolJson : List Char

def State.init : State := ⟨none, none, none, none, none, []⟩

def mapStopReason (reason : List Char) : Option StopReason :=
  if reason == "end_turn".data then some StopReason.endTurn
  else if reason == "tool_use".data then some StopReason.toolUse
  else if reason == "max_tokens".data then some StopReason.maxTokens
  else none

/-- The `match event` arms of the stream loop. Returns the new state, the
events sent, and whether the parser returned (terminal frame). -/
def step (st : State) (e : Event) : State × List StreamEvent × Bool :=
  match e with
  | .messageStart msg =>
    match msg.usage with
    | some u => ({ st with tokensIn := u.inputTokens }, [], false)
    | none => (st, [], false)
  | .contentBlockStart _ block =>
    match block with
    | .toolUse id name _ =>
      ({ st with currentToolId := some id, currentToolName := some name,
                 currentToolJson := [] },
       [StreamEvent.toolCallStart id name], false)
    | .text _ => (st, [], false)
  | .contentBlockDelta _ d =>
    match d with
    | .textDelta t => (st, [StreamEvent.token t], false)
    | .inputJsonDelta pj =>
      let st' := { st with currentToolJson := st.currentToolJson ++ pj }
      match st.currentToolId with
      | some id => (st', [StreamEvent.toolCallDelta id pj], false)
      | none => (st', [], false)
    | .other => (st, [], false)
  | .contentBlockStop _ =>
    -- both Options are `take()`n unconditionally
    let st' := { st with currentToolId := none, currentToolName := none }
    match st.currentToolId, st.currentToolName with
    | some id, some name =>
      let args := (jsonParse st.currentToolJson).getD Json.emptyObj
      ({ st' with currentToolJson := [] },
       [StreamEvent.toolCallComplete ⟨id, name, args⟩], false)
    | _, _ => (st', [], false)
  | .messageDelta d usage =>
    let st1 :=
      match usage with
      | some u => { st with tokensOut := u.outputTokens }
      | none => st
    let st2 :=
      match d.stopReason with
      | some reason => { st1 with stopReason := mapStopReason reason }
      | none => st1
    (st2, [], false)
  | .messageStop =>
    (st, [StreamEvent.done st.tokensIn st.tokensOut st.stopReason], true)
  | .ping => (st, [], false)
  | .error msg => (st, [StreamEvent.error msg], true)

/-- Process one complete SSE frame: concatenate `data:` payloads, skip empty
payloads, parse; malformed payloads are logged and skipped. -/
def processFrame (st : State) (frame : List Char) : State × List StreamEvent × Bool :=
  let data := frameData frame
  if data.isEmpty then (st, [], false)
  else
    match jsonParse data with
    | some j =>
      match decodeEvent j with
      | some e => step st e
      | none => (st, [], false)
    | none => (st, [], false)

def runFrames (st : State) : List (List Char) → State × List StreamEvent × Bool
  | [] => (st, [], false)
  | f :: fs =>
    let (st1, evs, term) := processFrame st f
    if term then (st1, evs, true)
    else
      let (st2, evs2, term2) := runFrames st1 fs
      (st2, evs ++ evs2, term2)

/-- `claude::stream::parse_sse_stream`. The response body arrives as `chunks`;
`transportErr` is the error of a failed `bytes_stream` read arriving after
those chunks (after an `Err` the loop returns at once, so any later chunks
are never seen and are not part of the input). -/
def parseSseStream (chunks : List (List Nat)) (transportErr : Option (List Char)) :
    List StreamEvent :=
  let frames := sseFrames chunks
  let (st, evs, term) := runFrames State.init frames
  if term then evs
  else
    match transportErr with
    | some msg => evs ++ [StreamEvent.error ("Stream error: ".data ++ msg)]
    | none => evs ++ [StreamEvent.done st.tokensIn st.tokensOut st.stopReason]

end Claude

def Json.asArr : Json → Option (List Json)
  | Json.arr items => some items
  | _ => none

/-! ## Local/OpenAI-compatible stream parser (`providers/local/stream.rs`) -/

namespace Local

structure ToolCallFn where
  name : Option (List Char)
  arguments : Option (List Char)

structure StreamToolCall where
  index : Nat
  id : Option (List Char)
  callType : Option (List Char)
  function : Option ToolCallFn

structure Delta where
  content : Option (List Char)
  toolCalls : Option (List StreamToolCall)

structure StreamChoice where
  delta : Delta
  finishReason : Option (List Char)

/-- `OpenAiStreamChunk`. -/
structure StreamChunk where
  choices : List StreamChoice

def decodeToolCallFn (j : Json) : Option ToolCallFn := do
  let n ← optField j "name".data Json.asStr
  let a ← optField j "arguments".data Json.asStr
  pure ⟨n, a⟩

def decodeStreamToolCall (j : Json) : Option StreamToolCall := do
  let idx ← reqField j "index".data Json.asNat
  let id ← optField j "id".data Json.asStr
  let ty ← optField j "type".data Json.asStr
  let fn ← optField j "function".data decodeToolCallFn
  pure ⟨idx, id, ty, fn⟩

def decodeDelta (j : Json) : Option Delta := do
  let c ← optField j "content".data Json.asStr
  let tcs ← optField j "tool_calls".data
    (fun v => Json.asArr v >>= fun items => items.mapM decodeStreamToolCall)
  pure ⟨c, tcs⟩

def decodeStreamChoice (j : Json) : Option StreamChoice := do
  let d ← reqField j "delta".data decodeDelta
  let fr ← optField j "finish_reason".data Json.asStr
  pure ⟨d, fr⟩

def decodeChunk (j : Json) : Option StreamChunk := do
  let cs ← reqField j "choices".data
    (fun v => Json.asArr v >>= fun items => items.mapM decodeStreamChoice)
  pure ⟨cs⟩

/-- `ToolCallAccumulator { id, name, arguments }`. -/
structure Accum where
  id : List Char
  name : List Char
  arguments : List Char

/-- The accumulator map is a `HashMap<u32, _>` in the code; its *drain order*
at `[DONE]` is unspecified there. We model it as an association list in
insertion order, fixing one deterministic order of the completion events (the
claims under study are about which events exist, not the drain order). -/
structure State where
  accums : List (Nat × Accum)
  hasToolCalls : Bool

def State.init : State := ⟨[], false⟩

def findAcc (accs : List (Nat × Accum)) (k : Nat) : Option Accum :=
  match accs.find? (fun e => e.1 == k) with
  | some e => some e.2
  | none => none

/-- Replace the accumulator stored at key `k` (present by construction). -/
def setAcc : List (Nat × Accum) → Nat → Accum → List (Nat × Accum)
  | [], _, _ => []
  | e :: rest, k, a =>
    if e.1 == k then (k, a) :: rest else e :: setAcc rest k a

/-- The body of `for tc in tool_calls { ... }` for a single `tc`. -/
def processToolCall (st : State) (tc : StreamToolCall) : State × List StreamEvent :=
  -- entry(tc.index).or_insert_with(new accumulator, flagging has_tool_calls)
  let (accs, hasTc, acc) :=
    match findAcc st.accums tc.index with
    | some a => (st.accums, st.hasToolCalls, a)
    | none =>
      let fresh : Accum := ⟨tc.id.getD [], [], []⟩
      (st.accums ++ [(tc.index, fresh)], true, fresh)
  let acc :=
    match tc.id with
    | some id => if id.isEmpty then acc else { acc with id := id }
    | none => acc
  let (acc, evs) :=
    match tc.function with
    | none => (acc, ([] : List StreamEvent))
    | some fn =>
      let (acc, evs1) :=
        match fn.name with
        | some name =>
          if name.isEmpty then (acc, ([] : List StreamEvent))
          else
            let evs := if acc.name.isEmpty
              then [StreamEvent.toolCallStart acc.id name] else []
            ({ acc with name := name }, evs)
        | none => (acc, [])
      match fn.arguments with
      | some args =>
        let acc := { acc with arguments := acc.arguments ++ args }
        if args.isEmpty then (acc, evs1)
        else (acc, evs1 ++ [StreamEvent.toolCallDelta acc.id args])
      | none => (acc, evs1)
  (⟨setAcc accs tc.index acc, hasTc⟩, evs)

def processToolCalls (st : State) : List StreamToolCall → State × List StreamEvent
  | [] => (st, [])
  | tc :: tcs =>
    let (st1, evs) := processToolCall st tc
    let (st2, evs2) := processToolCalls st1 tcs
    (st2, evs ++ evs2)

/-- The events drained at `[DONE]`: exactly one `ToolCallComplete` per
accumulator, its concatenated arguments parsed as JSON with an empty object
substituted on failure. -/
def drainEvents (accs : List (Nat × Accum)) : List StreamEvent :=
  accs.map fun e =>
    StreamEvent.toolCallComplete
      ⟨e.2.id, e.2.name, (jsonParse e.2.arguments).getD Json.emptyObj⟩

def doneStopReason (hasToolCalls : Bool) : Option StopReason :=
  if hasToolCalls then some StopReason.toolUse else some StopReason.endTurn

/-- Processing a decoded (non-`[DONE]`) payload: the body of the `Ok(chunk)`
arm (first choice only; text token, then the tool-call fragments). -/
def processChunk (st : State) (chunk : StreamChunk) : State × List StreamEvent :=
  match chunk.choices.head? with
  | some choice =>
    let evs1 :=
      match choice.delta.content with
      | some c => if c.isEmpty then [] else [StreamEvent.token c]
      | none => []
    match choice.delta.toolCalls with
    | some tcs =>
      let (st1, evs2) := processToolCalls st tcs
      (st1, evs1 ++ evs2)
    | none => (st, evs1)
  | none => (st, [])

/-- One `data:`-line payload. -/
def processPayload (st : State) (payload : List Char) : State × List StreamEvent × Bool :=
  if trimChars payload == "[DONE]".data then
    (⟨[], st.hasToolCalls⟩,
     drainEvents st.accums ++
       [StreamEvent.done none none (doneStopReason st.hasToolCalls)], true)
  else
    match jsonParse payload with
    | some j =>
      match decodeChunk j with
      | some chunk =>
        let (st1, evs) := processChunk st chunk
        (st1, evs, false)
      | none => (st, [], false)
    | none => (st, [], false)

def processLines (st : State) : List (List Char) → State × List StreamEvent × Bool
  | [] => (st, [], false)
  | l :: ls =>
    match dataPayloadOfLine l with
    | none => processLines st ls
    | some payload =>
      let (st1, evs, term) := processPayload st payload
      if term then (st1, evs, true)
      else
        let (st2, evs2, term2) := processLines st1 ls
        (st2, evs ++ evs2, term2)

def processFrame (st : State) (frame : List Char) : State × List StreamEvent × Bool :=
  processLines st (rustLines frame)

def runFrames (st : State) : List (List Char) → State × List StreamEvent × Bool
  | [] => (st, [], false)
  | f :: fs =>
    let (st1, evs, term) := processFrame st f
    if term then (st1, evs, true)
    else
      let (st2, evs2, term2) := runFrames st1 fs
      (st2, evs ++ evs2, term2)

/-- `local::stream::parse_sse_stream`. -/
def parseSseStream (chunks : List (List Nat)) (transportErr : Option (List Char)) :
    List StreamEvent :=
  let frames := sseFrames chunks
  let (st, evs, term) := runFrames State.init frames
  if term then evs
  else
    match transportErr with
    | some msg => evs ++ [StreamEvent.error ("Stream error: ".data ++ msg)]
    | none =>
      evs ++ [StreamEvent.done none none (doneStopReason st.hasToolCalls)]

end Local

/-! ## Gemini stream parser (`providers/gemini/stream.rs` + `models.rs`) -/

namespace Gemini

structure FunctionCall where
  name : List Char
  args : Json

structure FunctionResponse where
  name : List Char
  response : Json

structure InlineData where
  mimeType : List Char
  data : List Char

structure Part where
  text : Option (List Char)
  inlineData : Option InlineData
  functionCall : Option FunctionCall
  functionResponse : Option FunctionResponse

structure Content where
  role : List Char
  parts : List Part

structure Candidate where
  content : Option Content

structure UsageMetadata where
  promptTokenCount : Option Int
  candidatesTokenCount : Option Int

structure ErrInfo where
  message : Option (List Char)

/-- `GeminiResponse`. -/
structure Response where
  candidates : Option (List Candidate)
  usageMetadata : Option UsageMetadata
  error : Option ErrInfo

def decodeFunctionCall (j : Json) : Option FunctionCall := do
  let n ← reqField j "name".data Json.asStr
  let a ← reqField j "args".data (fun v => some v)
  pure ⟨n, a⟩

def decodeFunctionResponse (j : Json) : Option FunctionResponse := do
  let n ← reqField j "name".data Json.asStr
  let r ← reqField j "response".data (fun v => some v)
  pure ⟨n, r⟩

def decodeInlineData (j : Json) : Option InlineData := do
  let m ← reqField j "mimeType".data Json.asStr
  let d ← reqField j "data".data Json.asStr
  pure ⟨m, d⟩

def decodePart (j : Json) : Option Part := do
  let t ← optField j "text".data Json.asStr
  let idata ← optField j "inlineData".data decodeInlineData
  let fc ← optField j "functionCall".data decodeFunctionCall
  let fr ← optField j "functionResponse".data decodeFunctionResponse
  pure ⟨t, idata, fc, fr⟩

def decodeContent (j : Json) : Option Content := do
  let role ← reqField j "role".data Json.asStr
  let parts ← reqField j "parts".data
    (fun v => Json.asArr v >>= fun items => items.mapM decodePart)
  pure ⟨role, parts⟩

def decodeCandidate (j : Json) : Option Candidate := do
  let c ← optField j "content".data decodeContent
  pure ⟨c⟩

def decodeUsageMetadata (j : Json) : Option UsageMetadata := do
  let p ← optField j "promptTokenCount".data Json.asInt
  let c ← optField j "candidatesTokenCount".data Json.asInt
  pure ⟨p, c⟩

def decodeErrInfo (j : Json) : Option ErrInfo := do
  let m ← optField j "message".data Json.asStr
  pure ⟨m⟩

def decodeResponse (j : Json) : Option Response := do
  let cands ← optField j "candidates".data
    (fun v => Json.asArr v >>= fun items => items.mapM decodeCandidate)
  let usage ← optField j "usageMetadata".data decodeUsageMetadata
  let err ← optField j "error".data decodeErrInfo
  pure ⟨cands, usage, err⟩

/-- Parser locals. `uuidCounter` instruments `uuid::Uuid::new_v4()` (a fresh
random identifier per function call) with a deterministic fresh name. -/
structure State where
  lastTokensIn : Option Int
  lastTokensOut : Option Int
  hasToolCalls : Bool
  uuidCounter : Nat

def State.init : State := ⟨none, none, false, 0⟩

def freshUuid (n : Nat) : List Char := "uuid-".data ++ (Nat.toDigits 10 n)

/-- Emit Token / ToolCallComplete events for the parts of the first
candidate's content. -/
def processParts (st : State) : List Part → State × List StreamEvent
  | [] => (st, [])
  | p :: ps =>
    let evs1 :=
      match p.text with
      | some t => [StreamEvent.token t]
      | none => []
    let (st1, evs2) :=
      match p.functionCall with
      | some fc =>
        ({ st with hasToolCalls := true, uuidCounter := st.uuidCounter + 1 },
         [StreamEvent.toolCallComplete ⟨freshUuid st.uuidCounter, fc.name, fc.args⟩])
      | none => (st, [])
    let (st2, evs3) := processParts st1 ps
    (st2, evs1 ++ evs2 ++ evs3)

/-- The text/function-call pass over the first candidate's content parts. -/
def candidateEvents (st : State) (cands : Option (List Candidate)) :
    State × List StreamEvent :=
  match cands with
  | some cs =>
    match cs.head? with
    | some cand =>
      match cand.content with
      | some content => processParts st content.parts
      | none => (st, [])
    | none => (st, [])
  | none => (st, [])

/-- `Track usage metadata`: keep each side only when non-null. -/
def applyUsage (st : State) (usage : Option UsageMetadata) : State :=
  match usage with
  | some u =>
    let a := if u.promptTokenCount.isSome
      then { st with lastTokensIn := u.promptTokenCount } else st
    if u.candidatesTokenCount.isSome
      then { a with lastTokensOut := u.candidatesTokenCount } else a
  | none => st

def processFrame (st : State) (frame : List Char) : State × List StreamEvent × Bool :=
  let data := frameData frame
  if data.isEmpty then (st, [], false)
  else
    match jsonParse data with
    | some j =>
      match decodeResponse j with
      | some resp =>
        let (st1, evs1) := candidateEvents st resp.candidates
        let st2 := applyUsage st1 resp.usageMetadata
        match resp.error with
        | some e =>
          (st2, evs1 ++ [StreamEvent.error (e.message.getD "Unknown error".data)], true)
        | none => (st2, evs1, false)
      | none => (st, [], false)
    | none => (st, [], false)

def runFrames (st : State) : List (List Char) → State × List StreamEvent × Bool
  | [] => (st, [], false)
  | f :: fs =>
    let (st1, evs, term) := processFrame st f
    if term then (st1, evs, true)
    else
      let (st2, evs2, term2) := runFrames st1 fs
      (st2, evs ++ evs2, term2)

/-- `gemini::stream::parse_sse_stream`: end-of-body is the normal terminal;
the final `Done` carries the last accumulated usage and classifies the stop
reason by whether any tool call was observed. -/
def parseSseStream (chunks : List (List Nat)) (transportErr : Option (List Char)) :
    List StreamEvent :=
  let frames := sseFrames chunks
  let (st, evs, term) := runFrames State.init frames
  if term then evs
  else
    match transportErr with
    | some msg => evs ++ [StreamEvent.error ("Stream error: ".data ++ msg)]
    | none =>
      let stopReason := if st.hasToolCalls
        then some StopReason.toolUse else some StopReason.endTurn
      evs ++ [StreamEvent.done st.lastTokensIn st.lastTokensOut stopReason]

end Gemini

/-! ## Tool registry (`tools/registry.rs`) -/

/-- One registered tool: its definition name, its approval policy and its
execution behaviour (`dyn Tool`). -/
structure RegTool where
  name : List Char
  approvalRequired : Bool
  execute : ToolCall → ToolResult

/-- `ToolRegistry`: a `HashMap<String, Arc<dyn Tool>>`, modelled in
registration order (registered names are distinct). -/
structure ToolRegistry where
  tools : List RegTool

def ToolRegistry.get (r : ToolRegistry) (name : List Char) : Option RegTool :=
  r.tools.find? (fun t => t.name == name)

def ToolRegistry.execute (r : ToolRegistry) (call : ToolCall) : ToolResult :=
  match r.get call.name with
  | some t => t.execute call
  | none => ⟨call.id, "Unknown tool: ".data ++ call.name, true⟩

def ToolRegistry.requiresApproval (r : ToolRegistry) (name : List Char) : Bool :=
  match r.get name with
  | some t => t.approvalRequired
  | none => true

/-- `definitions()` (only the names matter to the agent loop). -/
def ToolRegistry.definitionNames (r : ToolRegistry) : List (List Char) :=
  r.tools.map (fun t => t.name)

/-! ## Agent loop (`services/agent.rs`) -/

namespace Agent

inductive ApprovalDecision where
  | allow
  | deny
  | allowAlways

/-- `AgentEvent`. -/
inductive Event where
  | textToken (text : List Char)
  | toolCallReceived (call : ToolCall)
  | toolExecuting (callId toolName : List Char)
  | toolCompleted (callId : List Char) (result : ToolResult) (durationMs : Nat)
  | awaitingApproval (call : ToolCall)
  | done (fullContent : List Char) (tokensIn tokensOut : Option Int)
  | error (message : List Char)

/-- The cancellation token, observed at poll instants `0, 1, 2, …` (the
loop-start check and every `tokio::select!` race consume one instant). It is
monotone: triggered from instant `cancelAt` on, never before. -/
def cancelledAt (cancelAt : Option Nat) (t : Nat) : Bool :=
  match cancelAt with
  | some c => c ≤ t
  | none => false

/-- `AgentLoopParams`. The provider side (`router.stream_message` plus the
spawned forwarding task) is a script: `streams i` is the event sequence the
`i`-th request's stream delivers on `stream_rx`. The approval channel is the
queue `approvals` (empty = channel closed). Wall-clock tool durations are
modelled as 0. -/
structure Params where
  maxIterations : Nat
  streams : Nat → List StreamEvent
  approvals : List ApprovalDecision
  tools : ToolRegistry
  autoApproveReadTools : Bool
  cancelAt : Option Nat

/-- Why `run_agent_loop` returned (instrumentation; not an observable of the
code, but a faithful classification of its `return` sites). -/
inductive ExitCause where
  | cancelledAtLoopStart
  | iterationLimit
  | cancelledMidStream
  | streamErrored
  | doneNormally
  | cancelledAtApproval
  | approvalChannelClosed
deriving DecidableEq, Repr

structure RunResult where
  events : List Event
  requests : Nat
  exit : ExitCause

inductive StreamRes where
  | cancelled
  | errored
  | finished (t : Nat) (iterText : List Char) (calls : List ToolCall)
      (tokensIn tokensOut : Option Int) (stopReason : Option StopReason)

/-- The inner `loop { tokio::select! { ... } }` over one provider stream:
each arm first races the cancellation token (one poll instant), then takes
the next stream event. On cancellation the in-flight stream is abandoned and
`Done` carries `full_text` — the text of *previous* iterations only, since
`full_text.push_str(&iteration_text)` has not run yet. -/
def streamPhase (cancelAt : Option Nat) (fullText : List Char)
    (totTi totTo : Option Int) :
    Nat → List StreamEvent → List Char → List ToolCall →
    Option Int → Option Int → Option StopReason → List Event × StreamRes
  | t, script, iterText, calls, ti, tout, sr =>
    if cancelledAt cancelAt t then
      ([Event.done fullText totTi totTo], StreamRes.cancelled)
    else
      match script with
      | [] => ([], StreamRes.finished (t + 1) iterText calls ti tout sr)
      | e :: rest =>
        match e with
        | .token tok =>
          let (evs, res) := streamPhase cancelAt fullText totTi totTo
            (t + 1) rest (iterText ++ tok) calls ti tout sr
          (Event.textToken tok :: evs, res)
        | .toolCallStart _ _ =>
          streamPhase cancelAt fullText totTi totTo (t + 1) rest iterText calls ti tout sr
        | .toolCallDelta _ _ =>
          streamPhase cancelAt fullText totTi totTo (t + 1) rest iterText calls ti tout sr
        | .toolCallComplete call =>
          let (evs, res) := streamPhase cancelAt fullText totTi totTo
            (t + 1) rest iterText (calls ++ [call]) ti tout sr
          (Event.toolCallReceived call :: evs, res)
        | .done ti2 tout2 sr2 =>
          ([], StreamRes.finished (t + 1) iterText calls ti2 tout2 sr2)
        | .error msg => ([Event.error msg], StreamRes.errored)

inductive ToolRes where
  | cancelled
  | channelClosed
  | finished (t : Nat) (approvals : List ApprovalDecision)
      (autoApproved : List (List Char)) (results : List ToolResult)

def insertName (auto : List (List Char)) (name : List Char) : List (List Char) :=
  if auto.contains name then auto else auto ++ [name]

/-- The `for call in &tool_calls` execution phase. An approval wait races the
cancellation token (one poll instant); `full_text` already includes this
iteration's text here. -/
def toolPhase (reg : ToolRegistry) (cancelAt : Option Nat) (fullText : List Char)
    (totTi totTo : Option Int) :
    Nat → List ToolCall → List ApprovalDecision → List (List Char) →
    List ToolResult → List Event × ToolRes
  | t, [], approvals, auto, results => ([], ToolRes.finished t approvals auto results)
  | t, call :: rest, approvals, auto, results =>
    let execCall := fun (t : Nat) (approvals : List ApprovalDecision)
        (auto : List (List Char)) =>
      let result := reg.execute call
      let (evs, res) := toolPhase reg cancelAt fullText totTi totTo
        t rest approvals auto (results ++ [result])
      (Event.toolExecuting call.id call.name ::
       Event.toolCompleted call.id result 0 :: evs, res)
    let needsApproval := reg.requiresApproval call.name && !(auto.contains call.name)
    if needsApproval then
      if cancelledAt cancelAt t then
        ([Event.awaitingApproval call, Event.done fullText totTi totTo],
         ToolRes.cancelled)
      else
        match approvals with
        | [] =>
          ([Event.awaitingApproval call, Event.error "Approval channel closed".data],
           ToolRes.channelClosed)
        | d :: ds =>
          match d with
          | .deny =>
            let denial : ToolResult := ⟨call.id, "Tool call denied by user".data, true⟩
            let (evs, res) := toolPhase reg cancelAt fullText totTi totTo
              (t + 1) rest ds auto (results ++ [denial])
            (Event.awaitingApproval call :: evs, res)
          | .allowAlways =>
            let (evs, res) := execCall (t + 1) ds (insertName auto call.name)
            (Event.awaitingApproval call :: evs, res)
          | .allow =>
            let (evs, res) := execCall (t + 1) ds auto
            (Event.awaitingApproval call :: evs, res)
    else execCall t approvals auto

def accumTokens (tot : Option Int) : Option Int → Option Int
  | some v => some (tot.getD 0 + v)
  | none => tot

/-- The outer `loop`. `fuel = max_iterations - iteration` (the loop-start
bound check `iteration >= max_iterations` is exactly `fuel = 0`); one poll
instant is consumed by the `is_cancelled` check that precedes it. -/
def loopGo (p : Params) : Nat → Nat → Nat → List Char → Option Int → Option Int →
    List ApprovalDecision → List (List Char) → RunResult
  | fuel, iter, t, fullText, totTi, totTo, approvals, auto =>
    if cancelledAt p.cancelAt t then
      ⟨[Event.error "Cancelled".data], 0, ExitCause.cancelledAtLoopStart⟩
    else
      match fuel with
      | 0 =>
        ⟨[Event.error ("Reached maximum iterations (".data ++
            Nat.toDigits 10 p.maxIterations ++ ")".data)], 0,
         ExitCause.iterationLimit⟩
      | fuel' + 1 =>
        let (evs1, sres) := streamPhase p.cancelAt fullText totTi totTo
          (t + 1) (p.streams iter) [] [] none none none
        match sres with
        | .cancelled => ⟨evs1, 1, ExitCause.cancelledMidStream⟩
        | .errored => ⟨evs1, 1, ExitCause.streamErrored⟩
        | .finished t2 iterText calls ti tout sr =>
          let totTi2 := accumTokens totTi ti
          let totTo2 := accumTokens totTo tout
          let fullText2 := fullText ++ iterText
          if calls.isEmpty || !(sr == some StopReason.toolUse) then
            ⟨evs1 ++ [Event.done fullText2 totTi2 totTo2], 1, ExitCause.doneNormally⟩
          else
            let (evs2, tres) := toolPhase p.tools p.cancelAt fullText2 totTi2 totTo2
              t2 calls approvals auto []
            match tres with
            | .cancelled => ⟨evs1 ++ evs2, 1, ExitCause.cancelledAtApproval⟩
            | .channelClosed => ⟨evs1 ++ evs2, 1, ExitCause.approvalChannelClosed⟩
            | .finished t3 approvals2 auto2 _results =>
              let r := loopGo p fuel' (iter + 1) t3 fullText2 totTi2 totTo2
                approvals2 auto2
              ⟨evs1 ++ evs2 ++ r.events, 1 + r.requests, r.exit⟩

/-- `run_agent_loop`: pre-seeds the auto-approved set when
`auto_approve_read_tools` is set, then runs the bounded iteration loop. -/
def runAgentLoop (p : Params) : RunResult :=
  let auto0 :=
    if p.autoApproveReadTools then
      p.tools.definitionNames.filter (fun n => !(p.tools.requiresApproval n))
    else []
  loopGo p p.maxIterations 0 0 [] none none p.approvals auto0

/-- Concatenation of the `TextToken` payloads of an agent event list. -/
def tokenConcat : List Event → List Char
  | [] => []
  | Event.textToken t :: rest => t ++ tokenConcat rest
  | _ :: rest => tokenConcat rest

end Agent

/-! ## Conversation store and replay (`services/database.rs`, `services/conversation.rs`) -/

namespace Convo

inductive Role where
  | user
  | assistant
deriving DecidableEq, Repr

/-- A persisted message row (the columns this core reads). `created_at` is
stored as an RFC3339 string and compared lexicographically, which agrees with
chronological order for a monotone clock; we model the timestamp as a `Nat`. -/
structure Message where
  id : List Char
  conversationId : List Char
  role : Role
  content : List Char
  createdAt : Nat
  isActive : Bool

structure Database where
  messages : List Message

/-- Stable insertion for `ORDER BY created_at ASC` (equal timestamps keep
insertion order). -/
def insertByCreatedAt (m : Message) : List Message → List Message
  | [] => [m]
  | x :: xs =>
    if x.createdAt ≤ m.createdAt then x :: insertByCreatedAt m xs
    else m :: x :: xs

def sortByCreatedAt (ms : List Message) : List Message :=
  ms.foldl (fun acc m => insertByCreatedAt m acc) []

/-- `SELECT … WHERE conversation_id = ?1 AND is_active = 1 ORDER BY created_at ASC`. -/
def Database.listMessages (db : Database) (cid : List Char) : List Message :=
  sortByCreatedAt (db.messages.filter (fun m => m.conversationId == cid && m.isActive))

/-- `UPDATE messages SET is_active = 0 WHERE conversation_id = ?1 AND created_at > ?2`. -/
def Database.deactivateMessagesAfter (db : Database) (cid : List Char) (cutoff : Nat) :
    Database :=
  ⟨db.messages.map fun m =>
    if m.conversationId == cid && decide (cutoff < m.createdAt) then
      { m with isActive := false }
    else m⟩

/-- `load_messages_with_attachments` returns `list_messages` with attachments
populated on user messages; attachments do not change the message set or
order, so the message list itself is what we model. -/
def loadMessagesWithAttachments (db : Database) (cid : List Char) : List Message :=
  db.listMessages cid

/-- `prepare_regeneration`: find the target in the *active* message list, find
the nearest preceding user message, deactivate everything after it, and
return the remaining active messages. The store handle is returned alongside
the `Result`, mirroring in-place mutation (an error mutates nothing; a failed
deactivation is only logged in the code and cannot occur in the model). -/
def prepareRegeneration (db : Database) (cid : List Char) (assistantMsgId : List Char) :
    Database × Except (List Char) (List Message) :=
  let msgs := db.listMessages cid
  match msgs.findIdx? (fun m => m.id == assistantMsgId) with
  | none => (db, Except.error "Message not found".data)
  | some assistantIdx =>
    match (msgs.take assistantIdx).reverse.find? (fun m => m.role == Role.user) with
    | none => (db, Except.error "No preceding user message found".data)
    | some userMsg =>
      let db2 := db.deactivateMessagesAfter cid userMsg.createdAt
      (db2, Except.ok (loadMessagesWithAttachments db2 cid))

end Convo

/-! ## `web_fetch` tool (`tools/builtin/web_fetch.rs`) -/

namespace WebFetch

/-- `std::net::IpAddr` (IPv4 octets / IPv6 16-bit segments). -/
inductive IpAddr where
  | v4 (a b c d : Nat)
  | v6 (s0 s1 s2 s3 s4 s5 s6 s7 : Nat)

def IpAddr.isLoopback : IpAddr → Bool
  | .v4 a _ _ _ => a == 127
  | .v6 s0 s1 s2 s3 s4 s5 s6 s7 =>
    s0 == 0 && s1 == 0 && s2 == 0 && s3 == 0 && s4 == 0 && s5 == 0 && s6 == 0 && s7 == 1

def IpAddr.isPrivateRange : IpAddr → Bool
  | .v4 a b _ _ => a == 10 || (a == 172 && 16 ≤ b && b ≤ 31) || (a == 192 && b == 168)
  | .v6 _ _ _ _ _ _ _ _ => false

def IpAddr.isLinkLocal : IpAddr → Bool
  | .v4 a b _ _ => a == 169 && b == 254
  | .v6 s0 _ _ _ _ _ _ _ => s0 &&& 0xffc0 == 0xfe80

def IpAddr.isUniqueLocal : IpAddr → Bool
  | .v4 _ _ _ _ => false
  | .v6 s0 _ _ _ _ _ _ _ => s0 &&& 0xff00 == 0xfd00

def IpAddr.isUnspecified : IpAddr → Bool
  | .v4 a b c d => a == 0 && b == 0 && c == 0 && d == 0
  | .v6 s0 s1 s2 s3 s4 s5 s6 s7 =>
    s0 == 0 && s1 == 0 && s2 == 0 && s3 == 0 && s4 == 0 && s5 == 0 && s6 == 0 && s7 == 0

/-- `is_private_ip`. -/
def isPrivateIp (ip : IpAddr) : Bool :=
  match ip with
  | .v4 _ _ _ _ =>
    ip.isLoopback || ip.isPrivateRange || ip.isLinkLocal || ip.isUnspecified
  | .v6 _ _ _ _ _ _ _ _ =>
    ip.isLoopback || ip.isUnspecified || ip.isUniqueLocal || ip.isLinkLocal

/-- The parts of `url::Url` that `validate_url` reads: the scheme, the host
(if any), an explicit port (if any), and the serialized form `to_string()`. -/
structure ParsedUrl where
  scheme : List Char
  host : Option (List Char)
  port : Option Nat
  full : List Char

/-- `Url::port_or_known_default().unwrap_or(80)` for http/https. -/
def ParsedUrl.portOrKnownDefault (p : ParsedUrl) : Nat :=
  p.port.getD (if p.scheme == "https".data then 443 else 80)

/-- `validate_url`. `parseUrl` models `url::Url::parse` (an external library)
and `resolver` models `tokio::net::lookup_host` on `"host:port"`; both are
parameters so every theorem holds for any parser/DNS behaviour. Error texts
carry the same wording as the code minus interpolated details. -/
def validateUrl (parseUrl : List Char → Option ParsedUrl)
    (resolver : List Char → Nat → Except (List Char) (List IpAddr))
    (rawUrl : List Char) : Except (List Char) (List Char) :=
  match parseUrl rawUrl with
  | none => Except.error "Invalid URL".data
  | some p =>
    if p.scheme == "http".data || p.scheme == "https".data then
      match p.host with
      | none => Except.error "URL has no host".data
      | some host =>
        match resolver host p.portOrKnownDefault with
        | Except.error _ => Except.error "DNS resolution failed".data
        | Except.ok addrs =>
          if addrs.isEmpty then
            Except.error "DNS resolution returned no addresses".data
          else
            match addrs.find? isPrivateIp with
            | some _ =>
              Except.error "Blocked: resolves to private/loopback address".data
            | none => Except.ok p.full
    else Except.error "Blocked scheme: only http and https are allowed".data

/-- Result of `WebFetchTool::execute` plus whether an HTTP request was issued
(the `HTTP_CLIENT.get(&url).send()` call is only reached on `Ok`). -/
structure FetchOutcome where
  result : ToolResult
  httpRequested : Bool

/-- `WebFetchTool::execute`. `http` models the GET request plus body
handling (HTML stripping/truncation), reached only after validation. -/
def execute (parseUrl : List Char → Option ParsedUrl)
    (resolver : List Char → Nat → Except (List Char) (List IpAddr))
    (http : List Char → ToolResult) (call : ToolCall) : FetchOutcome :=
  match call.arguments.lookup "url".data >>= Json.asStr with
  | none => ⟨⟨call.id, "Missing required parameter: url".data, true⟩, false⟩
  | some rawUrl =>
    match validateUrl parseUrl resolver rawUrl with
    | Except.error e => ⟨⟨call.id, e, true⟩, false⟩
    | Except.ok url => ⟨http url, true⟩

end WebFetch

/-! ## Derived observation helpers and concrete inputs used by the claims -/

def asciiBytes (s : List Char) : List Nat := s.map Char.toNat

/-- Number of `ToolCallComplete` events carrying the given call id. -/
def countCompletesWithId (evs : List StreamEvent) (id : List Char) : Nat :=
  match evs with
  | [] => 0
  | StreamEvent.toolCallComplete call :: rest =>
    (if call.id == id then 1 else 0) + countCompletesWithId rest id
  | _ :: rest => countCompletesWithId rest id

namespace Agent

def listHasDone : List Event → Bool
  | [] => false
  | Event.done _ _ _ :: _ => true
  | _ :: rest => listHasDone rest

/-- Events the streaming phase forwards to the UI (tokens and received tool
calls); the only agent events a cancelled-mid-stream iteration can have
emitted before its final `Done`. -/
def isStreamEchoEvent : Event → Bool
  | Event.textToken _ => true
  | Event.toolCallReceived _ => true
  | _ => false

/-- The C4 provider stub: `stop_reason=ToolUse` with one tool call for the
first `n` requests, then `EndTurn`. -/
def stubStreams (call : ToolCall) (n : Nat) : Nat → List StreamEvent :=
  fun i =>
    if i < n then
      [StreamEvent.toolCallComplete call,
       StreamEvent.done none none (some StopReason.toolUse)]
    else [StreamEvent.done none none (some StopReason.endTurn)]

def stubParams (reg : ToolRegistry) (call : ToolCall) (n maxIter : Nat) : Params :=
  ⟨maxIter, stubStreams call n, [], reg, false, none⟩

end Agent

namespace Local

/-- Spec-side view: the argument fragments belonging to key `k` within one
chunk's first choice, concatenated in arrival order. -/
def gatherArgsTc (k : Nat) : List StreamToolCall → List Char
  | [] => []
  | tc :: tcs =>
    (if tc.index == k then
      (match tc.function with
       | some fn => fn.arguments.getD []
       | none => []) else []) ++ gatherArgsTc k tcs

def chunkToolCalls (c : StreamChunk) : List StreamToolCall :=
  match c.choices.head? with
  | some choice => choice.delta.toolCalls.getD []
  | none => []

/-- All argument fragments for key `k` across a chunk sequence. -/
def gatherArgs (k : Nat) (cs : List StreamChunk) : List Char :=
  match cs with
  | [] => []
  | c :: rest => gatherArgsTc k (chunkToolCalls c) ++ gatherArgs k rest

def keyInTcs (k : Nat) : List StreamToolCall → Bool
  | [] => false
  | tc :: tcs => tc.index == k || keyInTcs k tcs

def keyAppears (k : Nat) (cs : List StreamChunk) : Bool :=
  cs.any fun c => keyInTcs k (chunkToolCalls c)

/-- A typed-payload run of the stream loop (every payload decoded, no
terminal yet): the accumulator evolution the interleaving claims are about. -/
def runChunks (st : State) : List StreamChunk → State × List StreamEvent
  | [] => (st, [])
  | c :: cs =>
    let (st1, evs) := processChunk st c
    let (st2, evs2) := runChunks st1 cs
    (st2, evs ++ evs2)

/-- Among the events drained at `[DONE]`, those coming from key `k`. -/
def completionsOfKey (k : Nat) (accs : List (Nat × Accum)) : List StreamEvent :=
  drainEvents (accs.filter fun e => e.1 == k)

def keysOf (accs : List (Nat × Accum)) : List Nat := accs.map (fun e => e.1)

/-- The argument fragment one `tc` contributes to its accumulator. -/
def fragOf (tc : StreamToolCall) : List Char :=
  match tc.function with
  | some fn => fn.arguments.getD []
  | none => []

/-- The accumulator `or_insert_with` creates. -/
def freshAcc (tc : StreamToolCall) : Accum := ⟨tc.id.getD [], [], []⟩

/-- The id/name/arguments updates one `tc` applies to its accumulator. -/
def updAcc (a : Accum) (tc : StreamToolCall) : Accum :=
  let a1 : Accum :=
    match tc.id with
    | some id => if id.isEmpty then a else { a with id := id }
    | none => a
  match tc.function with
  | some fn =>
    let a2 : Accum :=
      match fn.name with
      | some n => if n.isEmpty then a1 else { a1 with name := n }
      | none => a1
    match fn.arguments with
    | some ar => { a2 with arguments := a2.arguments ++ ar }
    | none => a2
  | none => a1

/-- Spec-side view for C7: does any data-line payload of the stream carry a
tool-call fragment (this is what latches `has_tool_calls`)? -/
def payloadHasToolCall (p : List Char) : Bool :=
  match jsonParse p with
  | some j =>
    match decodeChunk j with
    | some chunk =>
      match chunk.choices.head? with
      | some choice =>
        match choice.delta.toolCalls with
        | some (_ :: _) => true
        | _ => false
      | none => false
    | none => false
  | none => false

def framePayloads (frame : List Char) : List (List Char) :=
  (rustLines frame).filterMap dataPayloadOfLine

def observedToolSpec (frames : List (List Char)) : Bool :=
  frames.any fun f => (framePayloads f).any payloadHasToolCall

end Local

namespace Gemini

/-- The decoded payload of a frame, when its concatenated data is nonempty
and parses. -/
def decodeFrame (f : List Char) : Option Response :=
  if (frameData f).isEmpty then none
  else
    match jsonParse (frameData f) with
    | some j => decodeResponse j
    | none => none

def respTokensIn (r : Response) : Option Int :=
  match r.usageMetadata with
  | some u => u.promptTokenCount
  | none => none

def respTokensOut (r : Response) : Option Int :=
  match r.usageMetadata with
  | some u => u.candidatesTokenCount
  | none => none

/-- "Most recently accumulated" fold: keep the previous value unless this
response carries a non-null one. -/
def lastSomeFrom (init : Option Int) (vals : List (Option Int)) : Option Int :=
  vals.foldl (fun acc v => if v.isSome then v else acc) init

def lastTokensInSpec (frames : List (List Char)) : Option Int :=
  lastSomeFrom none ((frames.filterMap decodeFrame).map respTokensIn)

def lastTokensOutSpec (frames : List (List Char)) : Option Int :=
  lastSomeFrom none ((frames.filterMap decodeFrame).map respTokensOut)

def candsHasToolCall (cands : Option (List Candidate)) : Bool :=
  match cands with
  | some cs =>
    match cs.head? with
    | some cand =>
      match cand.content with
      | some ct => ct.parts.any fun p => p.functionCall.isSome
      | none => false
    | none => false
  | none => false

def respHasToolCall (r : Response) : Bool :=
  candsHasToolCall r.candidates

def observedToolSpec (frames : List (List Char)) : Bool :=
  (frames.filterMap decodeFrame).any respHasToolCall

end Gemini

/-! ### Concrete inputs -/

/-- The C2 failing input: a Claude SSE body with CRLF line endings — a text
delta frame followed by a `message_stop` frame. -/
def c2Body : List Char :=
  ("data: \x7b\"type\":\"content_block_delta\",\"index\":0,\"delta\":\x7b\"type\":\"text_delta\",\"text\":\"hi\"\x7d\x7d\r\n\r\ndata: \x7b\"type\":\"message_stop\"\x7d\r\n\r\n").data

/-- Fragmentation 1: the whole body in one chunk. -/
def c2Whole : List (List Nat) := [asciiBytes c2Body]

/-- Fragmentation 2: split at byte offset 91 — between the `\r` and the `\n`
of the second CRLF of the first frame delimiter `\r\n\r\n`. -/
def c2Split : List (List Nat) :=
  [asciiBytes (c2Body.take 91), asciiBytes (c2Body.drop 91)]

/-- The C5 counterexample: two *interleaved* Claude `tool_use` blocks —
`t1` starts and receives a fragment, then `t2` starts before `t1` stops. -/
def c5ClaudeBody : List Char :=
  ("data: \x7b\"type\":\"content_block_start\",\"index\":0,\"content_block\":\x7b\"type\":\"tool_use\",\"id\":\"t1\",\"name\":\"lookup\",\"input\":\x7b\x7d\x7d\x7d\n\n"
   ++ "data: \x7b\"type\":\"content_block_delta\",\"index\":0,\"delta\":\x7b\"type\":\"input_json_delta\",\"partial_json\":\"\x7b\\\"q\\\":1\x7d\"\x7d\x7d\n\n"
   ++ "data: \x7b\"type\":\"content_block_start\",\"index\":1,\"content_block\":\x7b\"type\":\"tool_use\",\"id\":\"t2\",\"name\":\"search\",\"input\":\x7b\x7d\x7d\x7d\n\n"
   ++ "data: \x7b\"type\":\"content_block_stop\",\"index\":0\x7d\n\n"
   ++ "data: \x7b\"type\":\"content_block_stop\",\"index\":1\x7d\n\n"
   ++ "data: \x7b\"type\":\"message_stop\"\x7d\n\n").data

def c5ClaudeChunks : List (List Nat) := [asciiBytes c5ClaudeBody]

/-- An interleaved two-call fragment stream for the local parser: indices 0
and 1 alternate across two payloads. -/
def c5LocalChunks : List Local.StreamChunk :=
  [⟨[⟨⟨none, some [⟨0, some "A".data, none, some ⟨some "alpha".data, some "\x7b\"x\":".data⟩⟩,
               ⟨1, some "B".data, none, some ⟨some "beta".data, some "\x7b\"y\":".data⟩⟩]⟩, none⟩]⟩,
   ⟨[⟨⟨none, some [⟨0, none, none, some ⟨none, some "1\x7d".data⟩⟩,
               ⟨1, none, none, some ⟨none, some "2\x7d".data⟩⟩]⟩, none⟩]⟩]

/-- Fragments of one local-parser tool call whose concatenation `oops\x7b` is
not valid JSON. -/
def c6LocalChunks : List Local.StreamChunk :=
  [⟨[⟨⟨none, some [⟨0, some "A".data, none, some ⟨some "alpha".data, some "oops".data⟩⟩]⟩, none⟩]⟩,
   ⟨[⟨⟨none, some [⟨0, none, none, some ⟨none, some "\x7b".data⟩⟩]⟩, none⟩]⟩]

/-- A Claude parser state mid-way through a tool-use block whose accumulated
argument fragments are not valid JSON. -/
def c6ClaudeState : Claude.State :=
  ⟨none, none, none, some "t1".data, some "lookup".data, "\x7b oops".data⟩

/-- A *completed* (`message_stop`-terminated) Claude stream with interleaved
`tool_use` blocks in which call `t1`'s only argument fragment, `oops`, is not
valid JSON: `t2` starts before `t1` stops, overwriting the single
accumulator. -/
def c6ClaudeBody : List Char :=
  ("data: \x7b\"type\":\"content_block_start\",\"index\":0,\"content_block\":\x7b\"type\":\"tool_use\",\"id\":\"t1\",\"name\":\"lookup\",\"input\":\x7b\x7d\x7d\x7d\n\n"
   ++ "data: \x7b\"type\":\"content_block_delta\",\"index\":0,\"delta\":\x7b\"type\":\"input_json_delta\",\"partial_json\":\"oops\"\x7d\x7d\n\n"
   ++ "data: \x7b\"type\":\"content_block_start\",\"index\":1,\"content_block\":\x7b\"type\":\"tool_use\",\"id\":\"t2\",\"name\":\"search\",\"input\":\x7b\x7d\x7d\x7d\n\n"
   ++ "data: \x7b\"type\":\"content_block_stop\",\"index\":0\x7d\n\n"
   ++ "data: \x7b\"type\":\"content_block_stop\",\"index\":1\x7d\n\n"
   ++ "data: \x7b\"type\":\"message_stop\"\x7d\n\n").data

def c6ClaudeChunks : List (List Nat) := [asciiBytes c6ClaudeBody]

/-- C7 concrete streams, all ending without their terminal signal. -/
def c7GeminiBytes : List (List Nat) :=
  [asciiBytes ("data: \x7b\"candidates\":[\x7b\"content\":\x7b\"role\":\"model\",\"parts\":[\x7b\"text\":\"hi\"\x7d,\x7b\"functionCall\":\x7b\"name\":\"f\",\"args\":\x7b\x7d\x7d\x7d]\x7d\x7d],\"usageMetadata\":\x7b\"promptTokenCount\":3,\"candidatesTokenCount\":7\x7d\x7d\n\n").data]

def c7LocalBytes : List (List Nat) :=
  [asciiBytes ("data: \x7b\"choices\":[\x7b\"delta\":\x7b\"content\":\"hey\"\x7d\x7d]\x7d\n\n").data]

def c7ClaudeBytes : List (List Nat) :=
  [asciiBytes ("data: \x7b\"type\":\"content_block_delta\",\"index\":0,\"delta\":\x7b\"type\":\"text_delta\",\"text\":\"yo\"\x7d\x7d\n\n").data]

/-- C3 store: one user message (t=1) and the assistant reply to regenerate
(t=2), in one conversation `c`. -/
def c3Db : Convo.Database :=
  ⟨[⟨"u1".data, "c".data, Convo.Role.user, "hello".data, 1, true⟩,
    ⟨"a1".data, "c".data, Convo.Role.assistant, "answer".data, 2, true⟩]⟩

/-- Agent-loop parameter sets. -/
def cancelAtStartParams : Agent.Params :=
  ⟨5, fun _ => [], [], ⟨[]⟩, false, some 0⟩

def midStreamCancelParams : Agent.Params :=
  ⟨1, fun _ => [StreamEvent.token "a".data], [], ⟨[]⟩, false, some 2⟩

def approvalTool : RegTool := ⟨"t".data, true, fun c => ⟨c.id, "ok".data, false⟩⟩

def approvalCall : ToolCall := ⟨"1".data, "t".data, Json.emptyObj⟩

def approvalCancelParams : Agent.Params :=
  ⟨2,
   fun _ => [StreamEvent.token "x".data, StreamEvent.toolCallComplete approvalCall,
             StreamEvent.done none none (some StopReason.toolUse)],
   [], ⟨[approvalTool]⟩, false, some 4⟩

def normalDoneParams : Agent.Params :=
  ⟨1, fun _ => [StreamEvent.token "hi".data,
                StreamEvent.done none none (some StopReason.endTurn)],
   [], ⟨[]⟩, false, none⟩

/-- C4 concrete stub registry/call (an approval-free tool). -/
def c4Reg : ToolRegistry := ⟨[⟨"t".data, false, fun c => ⟨c.id, "r".data, false⟩⟩]⟩

def c4Call : ToolCall := ⟨"1".data, "t".data, Json.emptyObj⟩

/-- C9 concrete unknown-tool call against the empty registry. -/
def c9Call : ToolCall := ⟨"1".data, "nope".data, Json.emptyObj⟩

/-- C8 concrete SSRF scenario: a host resolving to loopback/private/link-local
addresses only, plus a non-http scheme scenario. -/
def c8ParseUrl : List Char → Option WebFetch.ParsedUrl := fun _ =>
  some ⟨"http".data, some "internal.example".data, none, "http://internal.example/".data⟩

def c8Resolver : List Char → Nat → Except (List Char) (List WebFetch.IpAddr) :=
  fun _ _ => Except.ok
    [WebFetch.IpAddr.v4 127 0 0 1, WebFetch.IpAddr.v4 10 0 0 5,
     WebFetch.IpAddr.v4 169 254 169 254, WebFetch.IpAddr.v6 0 0 0 0 0 0 0 1]

def c8Http : List Char → ToolResult := fun _ => ⟨"1".data, "body".data, false⟩

def c8Call : ToolCall :=
  ⟨"1".data, "web_fetch".data,
   Json.obj [("url".data, Json.str "http://internal.example/".data)]⟩

def c8FileParseUrl : List Char → Option WebFetch.ParsedUrl := fun _ =>
  some ⟨"file".data, none, none, "file:///etc/passwd".data⟩

def c8FileCall : ToolCall :=
  ⟨"1".data, "web_fetch".data,
   Json.obj [("url".data, Json.str "file:///etc/passwd".data)]⟩
set_option maxRecDepth 1000000

theorem isPrivateIp_of_classes (a : WebFetch.IpAddr)
    (h : (a.isLoopback || a.isPrivateRange || a.isLinkLocal ||
          a.isUniqueLocal || a.isUnspecified) = true) :
    WebFetch.isPrivateIp a = true := by
  cases a <;>
    simp [WebFetch.isPrivateIp, WebFetch.IpAddr.isPrivateRange,
      WebFetch.IpAddr.isUniqueLocal] at h ⊢ <;> tauto

/-- C9: an unregistered tool name makes `execute` return an error
`ToolResult` (never a hard failure), and `requires_approval` defaults to
`true` for it (fail-safe). -/
theorem c9_unknown_tool_fail_safe (reg : ToolRegistry) (call : ToolCall)
    (h : reg.get call.name = none) :
    (reg.execute call).isError = true ∧
    (reg.execute call).content = "Unknown tool: ".data ++ call.name ∧
    reg.requiresApproval call.name = true := by
  unfold ToolRegistry.execute ToolRegistry.requiresApproval
  rw [h]
  exact ⟨rfl, rfl, rfl⟩

theorem c9_unknown_tool_fail_safe_witness :
    ToolRegistry.get ⟨[]⟩ c9Call.name = none ∧
    ((ToolRegistry.execute ⟨[]⟩ c9Call).isError = true ∧
     (ToolRegistry.execute ⟨[]⟩ c9Call).content = "Unknown tool: ".data ++ c9Call.name ∧
     ToolRegistry.requiresApproval ⟨[]⟩ c9Call.name = true) :=
  ⟨rfl, c9_unknown_tool_fail_safe ⟨[]⟩ c9Call rfl⟩

/-- C2 (code bug): chunking-invariance fails. The same Claude SSE body,
split at byte offset 91 — between the `\r` and `\n` of the second CRLF of a
frame delimiter — yields a different event sequence than the unsplit body,
because CRLF normalization is applied per decoded chunk: the split run
misses the frame boundary, merges two frames into one payload that fails to
parse, and loses the `Token "hi"` event. -/
theorem c2_chunking_invariance_fails :
    Claude.parseSseStream c2Whole none =
      [StreamEvent.token "hi".data, StreamEvent.done none none none] ∧
    Claude.parseSseStream c2Split none = [StreamEvent.done none none none] ∧
    Claude.parseSseStream c2Whole none ≠ Claude.parseSseStream c2Split none := by
  refine ⟨rfl, rfl, ?_⟩
  intro h
  have hlen := congrArg List.length h
  rw [show Claude.parseSseStream c2Whole none =
        [StreamEvent.token "hi".data, StreamEvent.done none none none] from rfl,
      show Claude.parseSseStream c2Split none =
        [StreamEvent.done none none none] from rfl] at hlen
  simp at hlen

/-- C1 counterexample: with the token already triggered at the loop-start
check, the loop emits `Error("Cancelled")` and no `Done` at all — the claim
says a `Done` with accumulated text is emitted. -/
theorem c1_counterexample :
    (Agent.runAgentLoop cancelAtStartParams).events =
      [Agent.Event.error "Cancelled".data] ∧
    Agent.listHasDone (Agent.runAgentLoop cancelAtStartParams).events = false :=
  ⟨rfl, rfl⟩

/-- C10 counterexample: cancelled mid-stream after one token, the final
event is `Done` with `full_content = []` although the `TextToken`s emitted
concatenate to `"a"`. -/
theorem c10_counterexample :
    (Agent.runAgentLoop midStreamCancelParams).events =
      [Agent.Event.textToken "a".data, Agent.Event.done [] none none] ∧
    Agent.tokenConcat (Agent.runAgentLoop midStreamCancelParams).events = "a".data ∧
    ("a".data : List Char) ≠ [] :=
  ⟨rfl, rfl, by decide⟩

/-- C3 counterexample: on a two-message store the first regeneration
succeeds (deactivating the assistant message), and the second application of
`prepare_regeneration` with the same target fails with `"Message not
found"` instead of succeeding idempotently. -/
theorem c3_counterexample :
    (Convo.prepareRegeneration c3Db "c".data "a1".data).2 =
      Except.ok [⟨"u1".data, "c".data, Convo.Role.user, "hello".data, 1, true⟩] ∧
    (Convo.prepareRegeneration
      (Convo.prepareRegeneration c3Db "c".data "a1".data).1 "c".data "a1".data).2 =
      Except.error "Message not found".data :=
  ⟨rfl, rfl⟩

/-- C5 counterexample: on a Claude stream with two interleaved `tool_use`
blocks, call `t1` yields *zero* `ToolCallComplete` events (its accumulator
is overwritten when `t2` starts), refuting the per-key-accumulator claim for
the Claude parser. -/
theorem c5_counterexample :
    Claude.parseSseStream c5ClaudeChunks none =
      [StreamEvent.toolCallStart "t1".data "lookup".data,
       StreamEvent.toolCallDelta "t1".data "\x7b\"q\":1\x7d".data,
       StreamEvent.toolCallStart "t2".data "search".data,
       StreamEvent.toolCallComplete ⟨"t2".data, "search".data, Json.obj []⟩,
       StreamEvent.done none none none] ∧
    countCompletesWithId (Claude.parseSseStream c5ClaudeChunks none) "t1".data ≠ 1 := by
  refine ⟨rfl, ?_⟩
  have h : countCompletesWithId (Claude.parseSseStream c5ClaudeChunks none) "t1".data = 0 := rfl
  omega

/-- C6 counterexample: on a *completed* (`message_stop`-terminated) Claude
stream whose `tool_use` blocks interleave, call `t1` — whose concatenated
argument fragments `oops` are not valid JSON — yields *zero*
`ToolCallComplete` events: the event is dropped (the `content_block_start`
for `t2` overwrote the single accumulator, and the stop at index 0 completed
`t2` instead), refuting the claim's "exactly one `ToolCallComplete` … never
a dropped event" for the Claude parser. -/
theorem c6_counterexample :
    jsonParse "oops".data = none ∧
    Claude.parseSseStream c6ClaudeChunks none =
      [StreamEvent.toolCallStart "t1".data "lookup".data,
       StreamEvent.toolCallDelta "t1".data "oops".data,
       StreamEvent.toolCallStart "t2".data "search".data,
       StreamEvent.toolCallComplete ⟨"t2".data, "search".data, Json.obj []⟩,
       StreamEvent.done none none none] ∧
    countCompletesWithId (Claude.parseSseStream c6ClaudeChunks none) "t1".data = 0 :=
  ⟨rfl, rfl, rfl⟩

/-- C8: `web_fetch` rejects non-http(s) schemes and hosts that resolve only
to loopback/private/link-local/unique-local/unspecified addresses, returning
an error `ToolResult` without issuing any HTTP request — for every URL
parser and DNS resolver behaviour. -/
theorem c8_webfetch_ssrf (parseUrl : List Char → Option WebFetch.ParsedUrl)
    (resolver : List Char → Nat → Except (List Char) (List WebFetch.IpAddr))
    (http : List Char → ToolResult) (call : ToolCall) (rawUrl : List Char)
    (p : WebFetch.ParsedUrl)
    (hurl : call.arguments.lookup "url".data >>= Json.asStr = some rawUrl)
    (hparse : parseUrl rawUrl = some p) :
    (¬ p.scheme = "http".data → ¬ p.scheme = "https".data →
      (WebFetch.execute parseUrl resolver http call).result.isError = true ∧
      (WebFetch.execute parseUrl resolver http call).httpRequested = false) ∧
    (∀ host addrs, p.host = some host →
      resolver host p.portOrKnownDefault = Except.ok addrs →
      (∀ a ∈ addrs, (a.isLoopback || a.isPrivateRange || a.isLinkLocal ||
          a.isUniqueLocal || a.isUnspecified) = true) →
      (WebFetch.execute parseUrl resolver http call).result.isError = true ∧
      (WebFetch.execute parseUrl resolver http call).httpRequested = false) := by
  have hex : WebFetch.execute parseUrl resolver http call =
      match WebFetch.validateUrl parseUrl resolver rawUrl with
      | Except.error e => ⟨⟨call.id, e, true⟩, false⟩
      | Except.ok url => ⟨http url, true⟩ := by
    unfold WebFetch.execute
    rw [hurl]
  have hval : WebFetch.validateUrl parseUrl resolver rawUrl =
      if (p.scheme == "http".data || p.scheme == "https".data) = true then
        match p.host with
        | none => Except.error "URL has no host".data
        | some host =>
          match resolver host p.portOrKnownDefault with
          | Except.error _ => Except.error "DNS resolution failed".data
          | Except.ok addrs =>
            if addrs.isEmpty = true then
              Except.error "DNS resolution returned no addresses".data
            else
              match List.find? WebFetch.isPrivateIp addrs with
              | some _ => Except.error "Blocked: resolves to private/loopback address".data
              | none => Except.ok p.full
      else Except.error "Blocked scheme: only http and https are allowed".data := by
    unfold WebFetch.validateUrl
    rw [hparse]
  constructor
  · intro h1 h2
    have hs : (p.scheme == "http".data || p.scheme == "https".data) = false := by
      simp [h1, h2]
    rw [hex, hval, hs]
    exact ⟨rfl, rfl⟩
  · intro host addrs hhost hres hall
    by_cases hs : (p.scheme == "http".data || p.scheme == "https".data) = true
    · cases addrs with
      | nil =>
        simp only [hex, hval, if_pos hs, hhost, hres, List.isEmpty_nil, if_true]
        exact ⟨trivial, trivial⟩
      | cons a rest =>
        have hpriv : WebFetch.isPrivateIp a = true :=
          isPrivateIp_of_classes a (hall a (by simp))
        simp only [hex, hval, if_pos hs, hhost, hres, List.isEmpty_cons,
          Bool.false_eq_true, if_false, List.find?_cons_of_pos _ hpriv]
        exact ⟨trivial, trivial⟩
    · rw [hex, hval, if_neg hs]
      exact ⟨rfl, rfl⟩

theorem c8_webfetch_ssrf_witness :
    ((WebFetch.execute c8ParseUrl c8Resolver c8Http c8Call).result.isError = true ∧
     (WebFetch.execute c8ParseUrl c8Resolver c8Http c8Call).httpRequested = false) ∧
    ((WebFetch.execute c8FileParseUrl c8Resolver c8Http c8FileCall).result.isError = true ∧
     (WebFetch.execute c8FileParseUrl c8Resolver c8Http c8FileCall).httpRequested = false) := by
  constructor
  · exact (c8_webfetch_ssrf c8ParseUrl c8Resolver c8Http c8Call
      "http://internal.example/".data _ rfl rfl).2 "internal.example".data _ rfl rfl
      (by decide)
  · exact (c8_webfetch_ssrf c8FileParseUrl c8Resolver c8Http c8FileCall
      "file:///etc/passwd".data _ rfl rfl).1 (by decide) (by decide)

theorem mem_insertByCreatedAt {x m : Convo.Message} {l : List Convo.Message} :
    x ∈ Convo.insertByCreatedAt m l ↔ x = m ∨ x ∈ l := by
  induction l with
  | nil => simp [Convo.insertByCreatedAt]
  | cons y ys ih =>
    simp only [Convo.insertByCreatedAt]
    split
    · simp only [List.mem_cons, ih]
      tauto
    · simp only [List.mem_cons]

theorem mem_sortByCreatedAt {x : Convo.Message} {l : List Convo.Message} :
    x ∈ Convo.sortByCreatedAt l ↔ x ∈ l := by
  suffices h : ∀ (acc : List Convo.Message),
      x ∈ l.foldl (fun acc m => Convo.insertByCreatedAt m acc) acc ↔ x ∈ acc ∨ x ∈ l by
    simpa [Convo.sortByCreatedAt] using h []
  induction l with
  | nil => simp
  | cons y ys ih =>
    intro acc
    simp only [List.foldl_cons, ih, mem_insertByCreatedAt, List.mem_cons]
    tauto

theorem mem_listMessages {db : Convo.Database} {cid : List Char} {m : Convo.Message} :
    m ∈ db.listMessages cid ↔
      m ∈ db.messages ∧ (m.conversationId == cid && m.isActive) = true := by
  simp [Convo.Database.listMessages, mem_sortByCreatedAt, List.mem_filter]

/-- C3 (corrected): `prepare_regeneration` is not idempotent. Whenever the
first application succeeds with a target strictly later than its preceding
user message, the target is deactivated, so the second application fails with
`"Message not found"` and leaves the store unchanged. -/
theorem c3_prepare_regeneration_second_application_fails
    (db : Convo.Database) (cid tid : List Char) (i : Nat) (u : Convo.Message)
    (hi : (db.listMessages cid).findIdx? (fun m => m.id == tid) = some i)
    (hu : ((db.listMessages cid).take i).reverse.find?
            (fun m => m.role == Convo.Role.user) = some u)
    (hlt : ∀ m ∈ db.messages, m.id = tid → u.createdAt < m.createdAt) :
    (Convo.prepareRegeneration db cid tid).2 =
      Except.ok ((Convo.prepareRegeneration db cid tid).1.listMessages cid) ∧
    Convo.prepareRegeneration (Convo.prepareRegeneration db cid tid).1 cid tid =
      ((Convo.prepareRegeneration db cid tid).1, Except.error "Message not found".data) := by
  have hpr : Convo.prepareRegeneration db cid tid =
      (db.deactivateMessagesAfter cid u.createdAt,
       Except.ok ((db.deactivateMessagesAfter cid u.createdAt).listMessages cid)) := by
    simp only [Convo.prepareRegeneration, hi, hu, Convo.loadMessagesWithAttachments]
  have hnone : ((db.deactivateMessagesAfter cid u.createdAt).listMessages cid).findIdx?
      (fun m => m.id == tid) = none := by
    rw [List.findIdx?_eq_none_iff]
    intro m hm
    obtain ⟨hmem, hcond⟩ := mem_listMessages.mp hm
    obtain ⟨m0, hm0, hmap⟩ := List.mem_map.mp hmem
    by_cases hc : (m0.conversationId == cid && decide (u.createdAt < m0.createdAt)) = true
    · -- m0 was deactivated: m is inactive, contradicting membership
      rw [if_pos hc] at hmap
      rw [← hmap] at hcond
      simp at hcond
    · -- m0 untouched: its timestamp contradicts hlt if its id were tid
      rw [if_neg hc] at hmap
      subst hmap
      by_contra hid
      rw [Bool.not_eq_false, beq_iff_eq] at hid
      have hlt0 := hlt m0 hm0 hid
      have hcid : (m0.conversationId == cid) = true := by
        have := hcond
        simp at this
        exact beq_iff_eq.mpr this.1
      simp [hcid, hlt0] at hc
  refine ⟨by rw [hpr], ?_⟩
  rw [hpr]
  simp only [Convo.prepareRegeneration, hnone]


namespace Local

theorem findAcc_cons (e : Nat × Accum) (rest : List (Nat × Accum)) (k : Nat) :
    findAcc (e :: rest) k = if (e.1 == k) = true then some e.2 else findAcc rest k := by
  by_cases h : (e.1 == k) = true
  · simp [findAcc, List.find?_cons, h]
  · simp [findAcc, List.find?_cons, h]

theorem findAcc_eq_none_iff {accs : List (Nat × Accum)} {k : Nat} :
    findAcc accs k = none ↔ k ∉ keysOf accs := by
  induction accs with
  | nil => simp [findAcc, keysOf]
  | cons e rest ih =>
    rw [findAcc_cons]
    by_cases h : (e.1 == k) = true
    · simp only [if_pos h, keysOf, List.map, List.mem_cons]
      rw [beq_iff_eq] at h
      simp [h]
    · simp only [if_neg h, keysOf, List.map, List.mem_cons] at ih ⊢
      rw [beq_iff_eq] at h
      constructor
      · intro hn
        rcases ih.mp hn with h2
        intro hor
        rcases hor with h3 | h3
        · exact h (by rw [h3])
        · exact h2 h3
      · intro hninor
        exact ih.mpr fun hmem => hninor (Or.inr hmem)

theorem keysOf_setAcc (accs : List (Nat × Accum)) (k : Nat) (a : Accum) :
    keysOf (setAcc accs k a) = keysOf accs := by
  induction accs with
  | nil => rfl
  | cons e rest ih =>
    simp only [setAcc]
    by_cases h : (e.1 == k) = true
    · rw [if_pos h]
      rw [beq_iff_eq] at h
      simp [keysOf, h]
    · rw [if_neg h]
      simp [keysOf] at ih ⊢
      exact ih

theorem findAcc_setAcc_self {accs : List (Nat × Accum)} {k : Nat} (a : Accum)
    (h : k ∈ keysOf accs) : findAcc (setAcc accs k a) k = some a := by
  induction accs with
  | nil => simp [keysOf] at h
  | cons e rest ih =>
    simp only [setAcc]
    by_cases he : (e.1 == k) = true
    · rw [if_pos he, findAcc_cons]
      simp
    · rw [if_neg he, findAcc_cons, if_neg he]
      apply ih
      simp only [keysOf, List.map, List.mem_cons] at h
      rcases h with h | h
      · exact absurd (beq_iff_eq.mpr h.symm) he
      · simpa [keysOf] using h

theorem findAcc_setAcc_other {accs : List (Nat × Accum)} {k k' : Nat} (a : Accum)
    (h : (k == k') = false) : findAcc (setAcc accs k a) k' = findAcc accs k' := by
  induction accs with
  | nil => rfl
  | cons e rest ih =>
    simp only [setAcc]
    by_cases he : (e.1 == k) = true
    · rw [if_pos he, findAcc_cons, findAcc_cons]
      have : (e.1 == k') = false := by
        rw [beq_iff_eq] at he
        rw [he]
        exact h
      simp only [h, this, Bool.false_eq_true, if_false]
    · rw [if_neg he, findAcc_cons, findAcc_cons]
      by_cases h2 : (e.1 == k') = true
      · simp [h2]
      · simp only [h2, Bool.false_eq_true, if_false]
        exact ih

theorem findAcc_append_singleton_other {accs : List (Nat × Accum)} {k k' : Nat}
    (a : Accum) (h : (k == k') = false) :
    findAcc (accs ++ [(k, a)]) k' = findAcc accs k' := by
  induction accs with
  | nil =>
    simp only [List.nil_append, findAcc_cons, h, Bool.false_eq_true, if_false]
  | cons e rest ih =>
    simp only [List.cons_append, findAcc_cons]
    by_cases h2 : (e.1 == k') = true
    · simp [h2]
    · simp only [h2, Bool.false_eq_true, if_false]
      exact ih

end Local

namespace Local

theorem processToolCall_accums_eq (st : State) (tc : StreamToolCall) :
    (processToolCall st tc).1.accums =
      match findAcc st.accums tc.index with
      | some a => setAcc st.accums tc.index (updAcc a tc)
      | none =>
        setAcc (st.accums ++ [(tc.index, freshAcc tc)]) tc.index
          (updAcc (freshAcc tc) tc) := by
  rcases tc with ⟨idx, tcid, ty, fn⟩
  cases hfind : findAcc st.accums idx <;>
    cases tcid <;>
    rcases fn with _ | ⟨fname, fargs⟩ <;>
    first
      | (cases fname <;> cases fargs <;>
          simp [processToolCall, updAcc, freshAcc, hfind] <;> split_ifs <;> simp)
      | (simp [processToolCall, updAcc, freshAcc, hfind] <;> split_ifs <;> simp)

theorem processToolCall_hasTc_eq (st : State) (tc : StreamToolCall) :
    (processToolCall st tc).1.hasToolCalls =
      match findAcc st.accums tc.index with
      | some _ => st.hasToolCalls
      | none => true := by
  rcases tc with ⟨idx, tcid, ty, fn⟩
  cases hfind : findAcc st.accums idx <;>
    cases tcid <;>
    rcases fn with _ | ⟨fname, fargs⟩ <;>
    first
      | (cases fname <;> cases fargs <;>
          simp [processToolCall, hfind] <;> split_ifs <;> simp)
      | (simp [processToolCall, hfind] <;> split_ifs <;> simp)

theorem updAcc_arguments (a : Accum) (tc : StreamToolCall) :
    (updAcc a tc).arguments = a.arguments ++ fragOf tc := by
  rcases tc with ⟨idx, tcid, ty, fn⟩
  rcases fn with _ | ⟨fname, fargs⟩ <;>
    cases tcid <;>
    first
      | (cases fname <;> cases fargs <;>
          simp [updAcc, fragOf] <;> split_ifs <;> simp)
      | (simp [updAcc, fragOf] <;> split_ifs <;> simp)

end Local

namespace Local

theorem processToolCall_findAcc_other (st : State) (tc : StreamToolCall) (k : Nat)
    (h : (tc.index == k) = false) :
    findAcc (processToolCall st tc).1.accums k = findAcc st.accums k := by
  rw [processToolCall_accums_eq]
  cases hfind : findAcc st.accums tc.index with
  | some a => exact findAcc_setAcc_other _ h
  | none =>
    rw [findAcc_setAcc_other _ h]
    exact findAcc_append_singleton_other _ h

theorem processToolCall_findAcc_self (st : State) (tc : StreamToolCall) :
    findAcc (processToolCall st tc).1.accums tc.index =
      some (updAcc ((findAcc st.accums tc.index).getD (freshAcc tc)) tc) := by
  rw [processToolCall_accums_eq]
  cases hfind : findAcc st.accums tc.index with
  | some a =>
    apply findAcc_setAcc_self
    by_contra hn
    rw [← findAcc_eq_none_iff] at hn
    rw [hfind] at hn
    exact Option.noConfusion hn
  | none =>
    apply findAcc_setAcc_self
    simp [keysOf]

theorem processToolCall_keysOf (st : State) (tc : StreamToolCall) :
    keysOf (processToolCall st tc).1.accums =
      match findAcc st.accums tc.index with
      | some _ => keysOf st.accums
      | none => keysOf st.accums ++ [tc.index] := by
  rw [processToolCall_accums_eq]
  cases hfind : findAcc st.accums tc.index with
  | some a => exact keysOf_setAcc _ _ _
  | none =>
    rw [keysOf_setAcc]
    simp [keysOf]

theorem processToolCall_nodup (st : State) (tc : StreamToolCall)
    (h : (keysOf st.accums).Nodup) :
    (keysOf (processToolCall st tc).1.accums).Nodup := by
  rw [processToolCall_keysOf]
  cases hfind : findAcc st.accums tc.index with
  | some a => exact h
  | none =>
    rw [List.nodup_append]
    
    refine ⟨h, List.nodup_singleton _, ?_⟩
    intro x hx hx2
    simp only [List.mem_singleton] at hx2
    subst hx2
    exact (findAcc_eq_none_iff.mp hfind) hx

theorem processToolCalls_cons (st : State) (tc : StreamToolCall)
    (tcs : List StreamToolCall) :
    processToolCalls st (tc :: tcs) =
      ((processToolCalls (processToolCall st tc).1 tcs).1,
       (processToolCall st tc).2 ++ (processToolCalls (processToolCall st tc).1 tcs).2) :=
  rfl

theorem gatherArgsTc_cons (k : Nat) (tc : StreamToolCall) (tcs : List StreamToolCall) :
    gatherArgsTc k (tc :: tcs) =
      (if (tc.index == k) = true then fragOf tc else []) ++ gatherArgsTc k tcs := by
  simp only [gatherArgsTc, fragOf]

theorem processToolCalls_nodup (tcs : List StreamToolCall) :
    ∀ (st : State), (keysOf st.accums).Nodup →
      (keysOf (processToolCalls st tcs).1.accums).Nodup := by
  induction tcs with
  | nil => intro st h; exact h
  | cons tc rest ih =>
    intro st h
    rw [processToolCalls_cons]
    exact ih _ (processToolCall_nodup st tc h)

theorem processToolCalls_findAcc (tcs : List StreamToolCall) :
    ∀ (st : State) (k : Nat),
    (∀ a, findAcc st.accums k = some a →
      ∃ a', findAcc (processToolCalls st tcs).1.accums k = some a' ∧
        a'.arguments = a.arguments ++ gatherArgsTc k tcs) ∧
    (findAcc st.accums k = none →
      (keyInTcs k tcs = true →
        ∃ a', findAcc (processToolCalls st tcs).1.accums k = some a' ∧
          a'.arguments = gatherArgsTc k tcs) ∧
      (keyInTcs k tcs = false →
        findAcc (processToolCalls st tcs).1.accums k = none)) := by
  induction tcs with
  | nil =>
    intro st k
    refine ⟨fun a ha => ⟨a, ha, by simp [gatherArgsTc]⟩, fun hn => ⟨?_, fun _ => hn⟩⟩
    intro hk
    simp [keyInTcs] at hk
  | cons tc rest ih =>
    intro st k
    rw [processToolCalls_cons]
    by_cases hk : (tc.index == k) = true
    · have hkk : tc.index = k := beq_iff_eq.mp hk
      subst hkk
      constructor
      · intro a ha
        have h1 := processToolCall_findAcc_self st tc
        rw [ha] at h1
        obtain ⟨a', h2, h3⟩ := ((ih (processToolCall st tc).1 tc.index).1 _ h1)
        refine ⟨a', h2, ?_⟩
        rw [h3, Option.getD_some, updAcc_arguments, gatherArgsTc_cons, if_pos hk,
          List.append_assoc]
      · intro hn
        have h1 := processToolCall_findAcc_self st tc
        rw [hn] at h1
        obtain ⟨a', h2, h3⟩ := ((ih (processToolCall st tc).1 tc.index).1 _ h1)
        constructor
        · intro _
          refine ⟨a', h2, ?_⟩
          rw [h3, Option.getD_none, updAcc_arguments, gatherArgsTc_cons, if_pos hk]
          simp [freshAcc]
        · intro hfalse
          simp [keyInTcs, hk] at hfalse
    · have hne : (tc.index == k) = false := by
        simpa using hk
      have hother := processToolCall_findAcc_other st tc k hne
      have hgather : gatherArgsTc k (tc :: rest) = gatherArgsTc k rest := by
        rw [gatherArgsTc_cons, if_neg hk, List.nil_append]
      have hkeyIn : keyInTcs k (tc :: rest) = keyInTcs k rest := by
        simp [keyInTcs, hne]
      constructor
      · intro a ha
        rw [hgather]
        exact (ih (processToolCall st tc).1 k).1 a (by rw [hother]; exact ha)
      · intro hn
        rw [hgather, hkeyIn]
        exact (ih (processToolCall st tc).1 k).2 (by rw [hother]; exact hn)

end Local

namespace Local

theorem processChunk_state (st : State) (c : StreamChunk) :
    (processChunk st c).1 = (processToolCalls st (chunkToolCalls c)).1 := by
  rcases c with ⟨choices⟩
  cases choices with
  | nil => rfl
  | cons ch rest =>
    rcases ch with ⟨⟨content, tcs⟩, fr⟩
    cases tcs with
    | none => rfl
    | some l => rfl

theorem runChunks_cons (st : State) (c : StreamChunk) (cs : List StreamChunk) :
    runChunks st (c :: cs) =
      ((runChunks (processChunk st c).1 cs).1,
       (processChunk st c).2 ++ (runChunks (processChunk st c).1 cs).2) :=
  rfl

theorem keyAppears_cons (k : Nat) (c : StreamChunk) (cs : List StreamChunk) :
    keyAppears k (c :: cs) = (keyInTcs k (chunkToolCalls c) || keyAppears k cs) := by
  simp [keyAppears]

theorem gatherArgs_cons (k : Nat) (c : StreamChunk) (cs : List StreamChunk) :
    gatherArgs k (c :: cs) = gatherArgsTc k (chunkToolCalls c) ++ gatherArgs k cs :=
  rfl

theorem gatherArgsTc_eq_nil_of_not_keyIn (k : Nat) (tcs : List StreamToolCall)
    (h : keyInTcs k tcs = false) : gatherArgsTc k tcs = [] := by
  induction tcs with
  | nil => rfl
  | cons tc rest ih =>
    simp only [keyInTcs, Bool.or_eq_false_iff] at h
    rw [gatherArgsTc_cons, if_neg (by simp [h.1]), ih h.2, List.append_nil]

theorem runChunks_nodup (cs : List StreamChunk) :
    ∀ (st : State), (keysOf st.accums).Nodup →
      (keysOf (runChunks st cs).1.accums).Nodup := by
  induction cs with
  | nil => intro st h; exact h
  | cons c rest ih =>
    intro st h
    rw [runChunks_cons]
    exact ih _ (by rw [processChunk_state]; exact processToolCalls_nodup _ st h)

theorem runChunks_findAcc (cs : List StreamChunk) :
    ∀ (st : State) (k : Nat),
    (∀ a, findAcc st.accums k = some a →
      ∃ a', findAcc (runChunks st cs).1.accums k = some a' ∧
        a'.arguments = a.arguments ++ gatherArgs k cs) ∧
    (findAcc st.accums k = none →
      (keyAppears k cs = true →
        ∃ a', findAcc (runChunks st cs).1.accums k = some a' ∧
          a'.arguments = gatherArgs k cs) ∧
      (keyAppears k cs = false →
        findAcc (runChunks st cs).1.accums k = none)) := by
  induction cs with
  | nil =>
    intro st k
    refine ⟨fun a ha => ⟨a, ha, by simp [gatherArgs]⟩, fun hn => ⟨?_, fun _ => hn⟩⟩
    intro hk
    simp [keyAppears] at hk
  | cons c rest ih =>
    intro st k
    rw [runChunks_cons]
    have hstep := processToolCalls_findAcc (chunkToolCalls c) st k
    constructor
    · intro a ha
      obtain ⟨a1, h1, h2⟩ := hstep.1 a ha
      rw [← processChunk_state] at h1
      obtain ⟨a2, h3, h4⟩ := (ih (processChunk st c).1 k).1 a1 h1
      refine ⟨a2, h3, ?_⟩
      rw [h4, h2, gatherArgs_cons, List.append_assoc]
    · intro hn
      rw [gatherArgs_cons, keyAppears_cons]
      by_cases hkc : keyInTcs k (chunkToolCalls c) = true
      · obtain ⟨a1, h1, h2⟩ := (hstep.2 hn).1 hkc
        rw [← processChunk_state] at h1
        obtain ⟨a2, h3, h4⟩ := (ih (processChunk st c).1 k).1 a1 h1
        constructor
        · intro _
          exact ⟨a2, h3, by rw [h4, h2]⟩
        · intro hfalse
          rw [hkc] at hfalse
          simp at hfalse
      · have hkc' : keyInTcs k (chunkToolCalls c) = false := by simpa using hkc
        have h1 := (hstep.2 hn).2 hkc'
        rw [← processChunk_state] at h1
        have hrest := (ih (processChunk st c).1 k).2 h1
        constructor
        · intro happ
          rw [hkc'] at happ
          simp only [Bool.false_or] at happ
          obtain ⟨a2, h3, h4⟩ := hrest.1 happ
          have hgtc : gatherArgsTc k (chunkToolCalls c) = [] :=
            gatherArgsTc_eq_nil_of_not_keyIn k _ hkc'
          exact ⟨a2, h3, by rw [h4, hgtc, List.nil_append]⟩
        · intro happ
          rw [hkc'] at happ
          simp only [Bool.false_or] at happ
          exact hrest.2 happ

end Local

namespace Local

theorem completionsOfKey_eq_single {accs : List (Nat × Accum)} {k : Nat} {a : Accum}
    (hnd : (keysOf accs).Nodup) (hfind : findAcc accs k = some a) :
    completionsOfKey k accs =
      [StreamEvent.toolCallComplete
        ⟨a.id, a.name, (jsonParse a.arguments).getD Json.emptyObj⟩] := by
  induction accs with
  | nil => simp [findAcc] at hfind
  | cons e rest ih =>
    rw [findAcc_cons] at hfind
    simp only [keysOf, List.map_cons, List.nodup_cons] at hnd
    by_cases he : (e.1 == k) = true
    · rw [if_pos he] at hfind
      injection hfind with hea
      have hrest : rest.filter (fun x => x.1 == k) = [] := by
        rw [List.filter_eq_nil_iff]
        intro x hx hxk
        apply hnd.1
        have : x.1 = k := beq_iff_eq.mp hxk
        have : x.1 = e.1 := by rw [this, beq_iff_eq.mp he]
        rw [← this]
        exact List.mem_map_of_mem (fun y => y.1) hx
      simp [completionsOfKey, drainEvents, List.filter_cons, he, hrest, hea]
    · rw [if_neg he] at hfind
      have := ih (by simpa [keysOf] using hnd.2) hfind
      simpa [completionsOfKey, drainEvents, List.filter_cons, he] using this

end Local

/-- C5 (corrected, the per-key accumulator half): the local/OpenAI parser
keeps one accumulator per `index` key, so under arbitrary interleaving every
key's accumulator holds exactly the concatenation of its own fragments, and
the `[DONE]` drain yields exactly one `ToolCallComplete` for it, with those
arguments parsed (empty object on failure). -/
theorem c5_per_key_accumulators (cs : List Local.StreamChunk) (k : Nat)
    (hk : Local.keyAppears k cs = true) :
    ∃ acc : Local.Accum,
      Local.findAcc (Local.runChunks Local.State.init cs).1.accums k = some acc ∧
      acc.arguments = Local.gatherArgs k cs ∧
      Local.completionsOfKey k (Local.runChunks Local.State.init cs).1.accums =
        [StreamEvent.toolCallComplete
          ⟨acc.id, acc.name, (jsonParse acc.arguments).getD Json.emptyObj⟩] := by
  have hinit : Local.findAcc Local.State.init.accums k = none := rfl
  obtain ⟨a, h1, h2⟩ := ((Local.runChunks_findAcc cs Local.State.init k).2 hinit).1 hk
  have hnd := Local.runChunks_nodup cs Local.State.init
    (by simp [Local.keysOf, Local.State.init])
  exact ⟨a, h1, h2, Local.completionsOfKey_eq_single hnd h1⟩

theorem c5_per_key_accumulators_witness :
    Local.keyAppears 0 c5LocalChunks = true ∧
    Local.findAcc (Local.runChunks Local.State.init c5LocalChunks).1.accums 0 =
      some ⟨"A".data, "alpha".data, "\x7b\"x\":1\x7d".data⟩ ∧
    (∃ acc : Local.Accum,
      Local.findAcc (Local.runChunks Local.State.init c5LocalChunks).1.accums 0 = some acc ∧
      acc.arguments = Local.gatherArgs 0 c5LocalChunks ∧
      Local.completionsOfKey 0 (Local.runChunks Local.State.init c5LocalChunks).1.accums =
        [StreamEvent.toolCallComplete
          ⟨acc.id, acc.name, (jsonParse acc.arguments).getD Json.emptyObj⟩]) :=
  ⟨rfl, rfl, c5_per_key_accumulators c5LocalChunks 0 rfl⟩

/-- C6 (amended): in the local parser, every tool call whose concatenated
argument fragments are not valid JSON still yields exactly one
`ToolCallComplete` with empty-object arguments; the Claude parser
substitutes the empty object only for the block it is still tracking at
`content_block_stop` — a call whose block was overwritten by an interleaved
`content_block_start` yields no `ToolCallComplete` at all (see the
counterexample). -/
theorem c6_invalid_json_empty_object :
    (∀ (cs : List Local.StreamChunk) (k : Nat) (acc : Local.Accum),
      Local.findAcc (Local.runChunks Local.State.init cs).1.accums k = some acc →
      jsonParse acc.arguments = none →
      Local.completionsOfKey k (Local.runChunks Local.State.init cs).1.accums =
        [StreamEvent.toolCallComplete ⟨acc.id, acc.name, Json.emptyObj⟩]) ∧
    (∀ (st : Claude.State) (idx : Nat) (id name : List Char),
      st.currentToolId = some id → st.currentToolName = some name →
      jsonParse st.currentToolJson = none →
      Claude.step st (Claude.Event.contentBlockStop idx) =
        ({ st with currentToolId := none, currentToolName := none,
                   currentToolJson := [] },
         [StreamEvent.toolCallComplete ⟨id, name, Json.emptyObj⟩], false)) := by
  constructor
  · intro cs k acc hfind hbad
    have hnd := Local.runChunks_nodup cs Local.State.init
      (by simp [Local.keysOf, Local.State.init])
    have h := Local.completionsOfKey_eq_single hnd hfind
    rw [hbad] at h
    simpa using h
  · intro st idx id name h1 h2 h3
    simp only [Claude.step, h1, h2, h3]
    rfl

theorem c6_invalid_json_empty_object_witness :
    (jsonParse ("oops".data ++ "\x7b".data) = none ∧
     Local.completionsOfKey 0 (Local.runChunks Local.State.init c6LocalChunks).1.accums =
       [StreamEvent.toolCallComplete ⟨"A".data, "alpha".data, Json.emptyObj⟩]) ∧
    (jsonParse c6ClaudeState.currentToolJson = none ∧
     Claude.step c6ClaudeState (Claude.Event.contentBlockStop 0) =
       ({ c6ClaudeState with currentToolId := none, currentToolName := none,
                             currentToolJson := [] },
        [StreamEvent.toolCallComplete ⟨"t1".data, "lookup".data, Json.emptyObj⟩], false)) :=
  ⟨⟨rfl, c6_invalid_json_empty_object.1 c6LocalChunks 0
      ⟨"A".data, "alpha".data, "oops\x7b".data⟩ rfl rfl⟩,
   ⟨rfl, c6_invalid_json_empty_object.2 c6ClaudeState 0 "t1".data "lookup".data rfl rfl rfl⟩⟩

namespace Gemini

theorem processParts_state (ps : List Part) :
    ∀ st : State,
      (processParts st ps).1.lastTokensIn = st.lastTokensIn ∧
      (processParts st ps).1.lastTokensOut = st.lastTokensOut ∧
      (processParts st ps).1.hasToolCalls =
        (st.hasToolCalls || ps.any fun p => p.functionCall.isSome) := by
  induction ps with
  | nil => intro st; simp [processParts]
  | cons p rest ih =>
    intro st
    rcases p with ⟨t, idata, fc, fr⟩
    cases fc with
    | none =>
      have := ih st
      simp only [processParts, List.any_cons]
      cases t <;> simpa [this.1, this.2.1, this.2.2] using this
    | some f =>
      have := ih { st with hasToolCalls := true, uuidCounter := st.uuidCounter + 1 }
      simp only [processParts, List.any_cons]
      cases t <;> simp [this.1, this.2.1, this.2.2]

theorem lastSomeFrom_cons (init : Option Int) (v : Option Int) (vs : List (Option Int)) :
    lastSomeFrom init (v :: vs) = lastSomeFrom (if v.isSome then v else init) vs := rfl

theorem candidateEvents_state (st : State) (cands : Option (List Candidate)) :
    (candidateEvents st cands).1.lastTokensIn = st.lastTokensIn ∧
    (candidateEvents st cands).1.lastTokensOut = st.lastTokensOut ∧
    (candidateEvents st cands).1.hasToolCalls =
      (st.hasToolCalls || candsHasToolCall cands) := by
  rcases cands with _ | cs
  · simp [candidateEvents, candsHasToolCall]
  · rcases cs with _ | ⟨cand, crest⟩
    · simp [candidateEvents, candsHasToolCall]
    · rcases hc : cand.content with _ | content
      · simp [candidateEvents, candsHasToolCall, hc]
      · have hp := processParts_state content.parts st
        simp [candidateEvents, candsHasToolCall, hc, hp.1, hp.2.1, hp.2.2]

theorem applyUsage_fields (st : State) (usage : Option UsageMetadata) :
    (applyUsage st usage).lastTokensIn =
      (match usage with
       | some u => if u.promptTokenCount.isSome then u.promptTokenCount
                   else st.lastTokensIn
       | none => st.lastTokensIn) ∧
    (applyUsage st usage).lastTokensOut =
      (match usage with
       | some u => if u.candidatesTokenCount.isSome then u.candidatesTokenCount
                   else st.lastTokensOut
       | none => st.lastTokensOut) ∧
    (applyUsage st usage).hasToolCalls = st.hasToolCalls := by
  cases usage with
  | none => simp [applyUsage]
  | some u =>
    by_cases h1 : u.promptTokenCount.isSome <;>
      by_cases h2 : u.candidatesTokenCount.isSome <;>
      simp [applyUsage, h1, h2]

theorem processFrame_state (st : State) (f : List Char)
    (hterm : (processFrame st f).2.2 = false) :
    (processFrame st f).1.lastTokensIn =
      (match decodeFrame f with
       | some r => if (respTokensIn r).isSome then respTokensIn r else st.lastTokensIn
       | none => st.lastTokensIn) ∧
    (processFrame st f).1.lastTokensOut =
      (match decodeFrame f with
       | some r => if (respTokensOut r).isSome then respTokensOut r else st.lastTokensOut
       | none => st.lastTokensOut) ∧
    (processFrame st f).1.hasToolCalls =
      (st.hasToolCalls ||
       (match decodeFrame f with
        | some r => respHasToolCall r
        | none => false)) := by
  by_cases hdata : (frameData f).isEmpty
  · simp [processFrame, decodeFrame, hdata]
  · cases hjson : jsonParse (frameData f) with
    | none => simp [processFrame, decodeFrame, hdata, hjson]
    | some j =>
      cases hresp : decodeResponse j with
      | none => simp [processFrame, decodeFrame, hdata, hjson, hresp]
      | some r =>
        obtain ⟨cands, usage, err⟩ := r
        have hdec : decodeFrame f = some ⟨cands, usage, err⟩ := by
          simp [decodeFrame, hdata, hjson, hresp]
        cases err with
        | some e =>
          exfalso
          revert hterm
          simp [processFrame, hdata, hjson, hresp]
        | none =>
          rw [hdec]
          have hce := candidateEvents_state st cands
          have hau := applyUsage_fields (candidateEvents st cands).1 usage
          have hpf : processFrame st f =
              (applyUsage (candidateEvents st cands).1 usage,
               (candidateEvents st cands).2, false) := by
            simp [processFrame, hdata, hjson, hresp]
          rw [hpf]
          refine ⟨?_, ?_, ?_⟩
          · rw [hau.1, hce.1]
            cases usage <;> simp [respTokensIn]
          · rw [hau.2.1, hce.2.1]
            cases usage <;> simp [respTokensOut]
          · rw [hau.2.2, hce.2.2]
            simp [respHasToolCall]

end Gemini

namespace Gemini

theorem runFrames_cons (st : State) (f : List Char) (fs : List (List Char)) :
    runFrames st (f :: fs) =
      if (processFrame st f).2.2 = true then
        ((processFrame st f).1, (processFrame st f).2.1, true)
      else
        ((runFrames (processFrame st f).1 fs).1,
         (processFrame st f).2.1 ++ (runFrames (processFrame st f).1 fs).2.1,
         (runFrames (processFrame st f).1 fs).2.2) := by
  show (let (st1, evs, term) := processFrame st f
        if term then (st1, evs, true)
        else
          let (st2, evs2, term2) := runFrames st1 fs
          (st2, evs ++ evs2, term2)) = _
  rcases h : processFrame st f with ⟨st1, evs, term⟩
  cases term <;> simp [h]

theorem runFrames_state (frames : List (List Char)) :
    ∀ st : State, (runFrames st frames).2.2 = false →
      (runFrames st frames).1.lastTokensIn =
        lastSomeFrom st.lastTokensIn ((frames.filterMap decodeFrame).map respTokensIn) ∧
      (runFrames st frames).1.lastTokensOut =
        lastSomeFrom st.lastTokensOut ((frames.filterMap decodeFrame).map respTokensOut) ∧
      (runFrames st frames).1.hasToolCalls =
        (st.hasToolCalls || (frames.filterMap decodeFrame).any respHasToolCall) := by
  induction frames with
  | nil => intro st _; simp [runFrames, lastSomeFrom]
  | cons f fs ih =>
    intro st hterm
    rw [runFrames_cons] at hterm ⊢
    by_cases hpf : (processFrame st f).2.2 = true
    · rw [if_pos hpf] at hterm
      simp at hterm
    · rw [if_neg hpf] at hterm ⊢
      have hpf' : (processFrame st f).2.2 = false := by simpa using hpf
      have hps := processFrame_state st f hpf'
      have hrest := ih (processFrame st f).1 hterm
      cases hdec : decodeFrame f with
      | none =>
        rw [hdec] at hps
        simp only [List.filterMap_cons, hdec]
        refine ⟨?_, ?_, ?_⟩
        · rw [hrest.1, hps.1]
        · rw [hrest.2.1, hps.2.1]
        · rw [hrest.2.2, hps.2.2]
          simp
      | some r =>
        rw [hdec] at hps
        simp only [List.filterMap_cons, hdec, List.map_cons, List.any_cons,
          lastSomeFrom_cons]
        refine ⟨?_, ?_, ?_⟩
        · rw [hrest.1, hps.1]
        · rw [hrest.2.1, hps.2.1]
        · rw [hrest.2.2, hps.2.2, Bool.or_assoc]

end Gemini

namespace Local

/-- Invariant: before anything is accumulated the flag is still off. -/
def HasTcInv (st : State) : Prop := st.hasToolCalls = false → st.accums = []

theorem processToolCall_hasTcInv (st : State) (tc : StreamToolCall) (h : HasTcInv st) :
    (processToolCall st tc).1.hasToolCalls = true := by
  rw [processToolCall_hasTc_eq]
  cases hfind : findAcc st.accums tc.index with
  | none => rfl
  | some a =>
    by_contra hb
    have hfalse : st.hasToolCalls = false := by
      cases hst : st.hasToolCalls
      · rfl
      · rw [hst] at hb; exact absurd rfl hb
    rw [h hfalse] at hfind
    simp [findAcc] at hfind

theorem processToolCalls_hasTc (tcs : List StreamToolCall) :
    ∀ st : State, HasTcInv st →
      (processToolCalls st tcs).1.hasToolCalls = (st.hasToolCalls || !tcs.isEmpty) ∧
      HasTcInv (processToolCalls st tcs).1 := by
  induction tcs with
  | nil => intro st h; exact ⟨by simp [processToolCalls], h⟩
  | cons tc rest ih =>
    intro st h
    rw [processToolCalls_cons]
    have h1 : (processToolCall st tc).1.hasToolCalls = true :=
      processToolCall_hasTcInv st tc h
    have h2 : HasTcInv (processToolCall st tc).1 := by
      intro hfalse
      rw [h1] at hfalse
      exact absurd hfalse (by simp)
    have := ih (processToolCall st tc).1 h2
    refine ⟨?_, this.2⟩
    rw [this.1, h1]
    simp

theorem processChunk_hasTc (st : State) (c : StreamChunk) (h : HasTcInv st) :
    (processChunk st c).1.hasToolCalls =
      (st.hasToolCalls || !(chunkToolCalls c).isEmpty) ∧
    HasTcInv (processChunk st c).1 := by
  rw [processChunk_state]
  exact processToolCalls_hasTc (chunkToolCalls c) st h

end Local

namespace Local

theorem payloadHasToolCall_eq {p : List Char} {j : Json} {chunk : StreamChunk}
    (hjson : jsonParse p = some j) (hdec : decodeChunk j = some chunk) :
    payloadHasToolCall p = !(chunkToolCalls chunk).isEmpty := by
  simp only [payloadHasToolCall, hjson, hdec, chunkToolCalls]
  rcases chunk with ⟨choices⟩
  cases choices with
  | nil => rfl
  | cons ch rest =>
    cases htc : ch.delta.toolCalls with
    | none => simp [htc]
    | some l => cases l <;> simp [htc]

theorem processPayload_hasTc (st : State) (p : List Char)
    (hterm : (processPayload st p).2.2 = false) (h : HasTcInv st) :
    (processPayload st p).1.hasToolCalls = (st.hasToolCalls || payloadHasToolCall p) ∧
    HasTcInv (processPayload st p).1 := by
  by_cases hdone : (trimChars p == "[DONE]".data) = true
  · exfalso
    revert hterm
    simp [processPayload, hdone]
  · have hd : (trimChars p == "[DONE]".data) = false := by simpa using hdone
    cases hjson : jsonParse p with
    | none =>
      have hres : processPayload st p = (st, [], false) := by
        simp [processPayload, hd, hjson]
      rw [hres]
      exact ⟨by simp [payloadHasToolCall, hjson], h⟩
    | some j =>
      cases hdec : decodeChunk j with
      | none =>
        have hres : processPayload st p = (st, [], false) := by
          simp [processPayload, hd, hjson, hdec]
        rw [hres]
        exact ⟨by simp [payloadHasToolCall, hjson, hdec], h⟩
      | some chunk =>
        have hres : processPayload st p =
            ((processChunk st chunk).1, (processChunk st chunk).2, false) := by
          simp [processPayload, hd, hjson, hdec]
        rw [hres]
        have hpc := processChunk_hasTc st chunk h
        refine ⟨?_, hpc.2⟩
        rw [hpc.1, payloadHasToolCall_eq hjson hdec]

theorem processLines_cons_data (st : State) (l : List Char) (rest : List (List Char))
    (p : List Char) (hdl : dataPayloadOfLine l = some p) :
    processLines st (l :: rest) =
      if (processPayload st p).2.2 = true then
        ((processPayload st p).1, (processPayload st p).2.1, true)
      else ((processLines (processPayload st p).1 rest).1,
            (processPayload st p).2.1 ++ (processLines (processPayload st p).1 rest).2.1,
            (processLines (processPayload st p).1 rest).2.2) := by
  simp only [processLines, hdl]

theorem processLines_hasTc (ls : List (List Char)) :
    ∀ st : State, (processLines st ls).2.2 = false → HasTcInv st →
      (processLines st ls).1.hasToolCalls =
        (st.hasToolCalls || (ls.filterMap dataPayloadOfLine).any payloadHasToolCall) ∧
      HasTcInv (processLines st ls).1 := by
  induction ls with
  | nil => intro st _ h; exact ⟨by simp [processLines], h⟩
  | cons l rest ih =>
    intro st hterm h
    cases hdl : dataPayloadOfLine l with
    | none =>
      have hrw : processLines st (l :: rest) = processLines st rest := by
        simp [processLines, hdl]
      rw [hrw] at hterm ⊢
      have := ih st hterm h
      refine ⟨?_, this.2⟩
      rw [this.1]
      simp [List.filterMap_cons, hdl]
    | some p =>
      rw [processLines_cons_data st l rest p hdl] at hterm ⊢
      by_cases hpt : (processPayload st p).2.2 = true
      · rw [if_pos hpt] at hterm
        simp at hterm
      · have hpt' : (processPayload st p).2.2 = false := by simpa using hpt
        rw [if_neg hpt] at hterm ⊢
        have hpp := processPayload_hasTc st p hpt' h
        have hrest := ih (processPayload st p).1 hterm hpp.2
        refine ⟨?_, hrest.2⟩
        rw [hrest.1, hpp.1, List.filterMap_cons, hdl]
        simp [Bool.or_assoc]

theorem localRunFrames_cons (st : State) (f : List Char) (fs : List (List Char)) :
    runFrames st (f :: fs) =
      if (processFrame st f).2.2 = true then
        ((processFrame st f).1, (processFrame st f).2.1, true)
      else
        ((runFrames (processFrame st f).1 fs).1,
         (processFrame st f).2.1 ++ (runFrames (processFrame st f).1 fs).2.1,
         (runFrames (processFrame st f).1 fs).2.2) := by
  show (let (st1, evs, term) := processFrame st f
        if term then (st1, evs, true)
        else
          let (st2, evs2, term2) := runFrames st1 fs
          (st2, evs ++ evs2, term2)) = _
  rcases h : processFrame st f with ⟨st1, evs, term⟩
  cases term <;> simp [h]

theorem runFrames_hasTc (frames : List (List Char)) :
    ∀ st : State, (runFrames st frames).2.2 = false → HasTcInv st →
      (runFrames st frames).1.hasToolCalls =
        (st.hasToolCalls || observedToolSpec frames) ∧
      HasTcInv (runFrames st frames).1 := by
  induction frames with
  | nil => intro st _ h; exact ⟨by simp [runFrames, observedToolSpec], h⟩
  | cons f fs ih =>
    intro st hterm h
    rw [localRunFrames_cons] at hterm ⊢
    by_cases hpt : (processFrame st f).2.2 = true
    · rw [if_pos hpt] at hterm
      simp at hterm
    · have hpt' : (processFrame st f).2.2 = false := by simpa using hpt
      rw [if_neg hpt] at hterm ⊢
      have hpf := processLines_hasTc (rustLines f) st hpt' h
      have hrest := ih (processFrame st f).1 hterm hpf.2
      refine ⟨?_, hrest.2⟩
      rw [hrest.1]
      have hpfl : (processFrame st f).1 = (processLines st (rustLines f)).1 := rfl
      rw [hpfl, hpf.1]
      simp only [observedToolSpec, List.any_cons, framePayloads, Bool.or_assoc]

end Local

/-- C7: a stream that ends without transport error and without its terminal
signal still produces a final `Done`: Gemini's carries the most recently
accumulated usage and a stop reason classified by tool observation, the local
parser's likewise classifies its synthesized `Done`, and Claude's synthesized
`Done` carries the accumulated usage and stop reason. -/
theorem c7_done_on_stream_end :
    (∀ chunks : List (List Nat),
      (Gemini.runFrames Gemini.State.init (sseFrames chunks)).2.2 = false →
      ∃ evs, Gemini.parseSseStream chunks none =
        evs ++ [StreamEvent.done
          (Gemini.lastTokensInSpec (sseFrames chunks))
          (Gemini.lastTokensOutSpec (sseFrames chunks))
          (if Gemini.observedToolSpec (sseFrames chunks) = true
           then some StopReason.toolUse else some StopReason.endTurn)]) ∧
    (∀ chunks : List (List Nat),
      (Local.runFrames Local.State.init (sseFrames chunks)).2.2 = false →
      ∃ evs, Local.parseSseStream chunks none =
        evs ++ [StreamEvent.done none none
          (Local.doneStopReason (Local.observedToolSpec (sseFrames chunks)))]) ∧
    (∀ chunks : List (List Nat),
      (Claude.runFrames Claude.State.init (sseFrames chunks)).2.2 = false →
      Claude.parseSseStream chunks none =
        (Claude.runFrames Claude.State.init (sseFrames chunks)).2.1 ++
          [StreamEvent.done
            (Claude.runFrames Claude.State.init (sseFrames chunks)).1.tokensIn
            (Claude.runFrames Claude.State.init (sseFrames chunks)).1.tokensOut
            (Claude.runFrames Claude.State.init (sseFrames chunks)).1.stopReason]) := by
  refine ⟨?_, ?_, ?_⟩
  · intro chunks hterm
    have hst := Gemini.runFrames_state (sseFrames chunks) Gemini.State.init hterm
    rcases hrf : Gemini.runFrames Gemini.State.init (sseFrames chunks) with ⟨st, evs, term⟩
    rw [hrf] at hterm hst
    simp only at hterm hst
    subst hterm
    refine ⟨evs, ?_⟩
    have hps : Gemini.parseSseStream chunks none =
        evs ++ [StreamEvent.done st.lastTokensIn st.lastTokensOut
          (if st.hasToolCalls = true then some StopReason.toolUse
           else some StopReason.endTurn)] := by
      simp [Gemini.parseSseStream, hrf]
    rw [hps, hst.1, hst.2.1, hst.2.2]
    rfl
  · intro chunks hterm
    have hinv : Local.HasTcInv Local.State.init := fun _ => rfl
    have hst := Local.runFrames_hasTc (sseFrames chunks) Local.State.init hterm hinv
    rcases hrf : Local.runFrames Local.State.init (sseFrames chunks) with ⟨st, evs, term⟩
    rw [hrf] at hterm hst
    simp only at hterm hst
    subst hterm
    refine ⟨evs, ?_⟩
    have hps : Local.parseSseStream chunks none =
        evs ++ [StreamEvent.done none none (Local.doneStopReason st.hasToolCalls)] := by
      simp [Local.parseSseStream, hrf]
    rw [hps, hst.1]
    rfl
  · intro chunks hterm
    rcases hrf : Claude.runFrames Claude.State.init (sseFrames chunks) with ⟨st, evs, term⟩
    rw [hrf] at hterm
    simp only at hterm ⊢
    subst hterm
    simp [Claude.parseSseStream, hrf]

theorem c7_done_on_stream_end_witness :
    (∃ evs, Gemini.parseSseStream c7GeminiBytes none =
      evs ++ [StreamEvent.done
        (Gemini.lastTokensInSpec (sseFrames c7GeminiBytes))
        (Gemini.lastTokensOutSpec (sseFrames c7GeminiBytes))
        (if Gemini.observedToolSpec (sseFrames c7GeminiBytes) = true
         then some StopReason.toolUse else some StopReason.endTurn)]) ∧
    (∃ evs, Local.parseSseStream c7LocalBytes none =
      evs ++ [StreamEvent.done none none
        (Local.doneStopReason (Local.observedToolSpec (sseFrames c7LocalBytes)))]) ∧
    (Claude.parseSseStream c7ClaudeBytes none =
      (Claude.runFrames Claude.State.init (sseFrames c7ClaudeBytes)).2.1 ++
        [StreamEvent.done
          (Claude.runFrames Claude.State.init (sseFrames c7ClaudeBytes)).1.tokensIn
          (Claude.runFrames Claude.State.init (sseFrames c7ClaudeBytes)).1.tokensOut
          (Claude.runFrames Claude.State.init (sseFrames c7ClaudeBytes)).1.stopReason]) :=
  ⟨c7_done_on_stream_end.1 c7GeminiBytes rfl,
   c7_done_on_stream_end.2.1 c7LocalBytes rfl,
   c7_done_on_stream_end.2.2 c7ClaudeBytes rfl⟩

namespace Agent

theorem tokenConcat_append (l1 l2 : List Event) :
    tokenConcat (l1 ++ l2) = tokenConcat l1 ++ tokenConcat l2 := by
  induction l1 with
  | nil => rfl
  | cons e rest ih => cases e <;> simp [tokenConcat, ih]

theorem getLast?_append_some {l1 l2 : List Event} {x : Event}
    (h : l2.getLast? = some x) : (l1 ++ l2).getLast? = some x := by
  rw [List.getLast?_append, h]
  rfl

theorem streamPhase_spec (cancelAt : Option Nat) (fullText : List Char)
    (totTi totTo : Option Int) (script : List StreamEvent) :
    ∀ (t : Nat) (iterText : List Char) (calls : List ToolCall)
      (ti tout : Option Int) (sr : Option StopReason),
    ((streamPhase cancelAt fullText totTi totTo t script iterText calls ti tout sr).2 =
        StreamRes.cancelled →
      ∃ evs0,
        (streamPhase cancelAt fullText totTi totTo t script iterText calls ti tout sr).1 =
          evs0 ++ [Event.done fullText totTi totTo] ∧
        evs0.all isStreamEchoEvent = true) ∧
    (∀ t2 iterText2 calls2 ti2 to2 sr2,
      (streamPhase cancelAt fullText totTi totTo t script iterText calls ti tout sr).2 =
        StreamRes.finished t2 iterText2 calls2 ti2 to2 sr2 →
      iterText2 = iterText ++
        tokenConcat (streamPhase cancelAt fullText totTi totTo t script iterText calls ti tout sr).1 ∧
      (streamPhase cancelAt fullText totTi totTo t script iterText calls ti tout sr).1.all
        isStreamEchoEvent = true) := by
  induction script with
  | nil =>
    intro t iterText calls ti tout sr
    by_cases hcan : cancelledAt cancelAt t = true
    · constructor
      · intro _
        refine ⟨[], ?_, rfl⟩
        simp [streamPhase, hcan]
      · intro t2 iterText2 calls2 ti2 to2 sr2 hfin
        exfalso
        simp [streamPhase, hcan] at hfin
    · constructor
      · intro hc
        exfalso
        simp [streamPhase, hcan] at hc
      · intro t2 iterText2 calls2 ti2 to2 sr2 hfin
        simp [streamPhase, hcan] at hfin ⊢
        rw [hfin.2.1]
        simp [tokenConcat]
  | cons e rest ih =>
    intro t iterText calls ti tout sr
    by_cases hcan : cancelledAt cancelAt t = true
    · constructor
      · intro _
        refine ⟨[], ?_, rfl⟩
        simp [streamPhase, hcan]
      · intro t2 iterText2 calls2 ti2 to2 sr2 hfin
        exfalso
        simp [streamPhase, hcan] at hfin
    · cases e with
      | token tok =>
        have hrw : streamPhase cancelAt fullText totTi totTo t (StreamEvent.token tok :: rest)
            iterText calls ti tout sr =
            (Event.textToken tok ::
              (streamPhase cancelAt fullText totTi totTo (t + 1) rest (iterText ++ tok)
                calls ti tout sr).1,
             (streamPhase cancelAt fullText totTi totTo (t + 1) rest (iterText ++ tok)
                calls ti tout sr).2) := by
          simp [streamPhase, hcan]
        rw [hrw]
        have hr := ih (t + 1) (iterText ++ tok) calls ti tout sr
        constructor
        · intro hc
          obtain ⟨evs0, h1, h2⟩ := hr.1 hc
          refine ⟨Event.textToken tok :: evs0, ?_, ?_⟩
          · simp [h1]
          · simp [isStreamEchoEvent, h2]
        · intro t2 iterText2 calls2 ti2 to2 sr2 hfin
          obtain ⟨h1, h2⟩ := hr.2 t2 iterText2 calls2 ti2 to2 sr2 hfin
          constructor
          · rw [h1]
            simp [tokenConcat]
          · simp [isStreamEchoEvent, h2]
      | toolCallStart id name =>
        have hrw : streamPhase cancelAt fullText totTi totTo t
            (StreamEvent.toolCallStart id name :: rest) iterText calls ti tout sr =
            streamPhase cancelAt fullText totTi totTo (t + 1) rest iterText calls ti tout sr := by
          simp [streamPhase, hcan]
        rw [hrw]
        exact ih (t + 1) iterText calls ti tout sr
      | toolCallDelta id chunk =>
        have hrw : streamPhase cancelAt fullText totTi totTo t
            (StreamEvent.toolCallDelta id chunk :: rest) iterText calls ti tout sr =
            streamPhase cancelAt fullText totTi totTo (t + 1) rest iterText calls ti tout sr := by
          simp [streamPhase, hcan]
        rw [hrw]
        exact ih (t + 1) iterText calls ti tout sr
      | toolCallComplete call =>
        have hrw : streamPhase cancelAt fullText totTi totTo t
            (StreamEvent.toolCallComplete call :: rest) iterText calls ti tout sr =
            (Event.toolCallReceived call ::
              (streamPhase cancelAt fullText totTi totTo (t + 1) rest iterText
                (calls ++ [call]) ti tout sr).1,
             (streamPhase cancelAt fullText totTi totTo (t + 1) rest iterText
                (calls ++ [call]) ti tout sr).2) := by
          simp [streamPhase, hcan]
        rw [hrw]
        have hr := ih (t + 1) iterText (calls ++ [call]) ti tout sr
        constructor
        · intro hc
          obtain ⟨evs0, h1, h2⟩ := hr.1 hc
          refine ⟨Event.toolCallReceived call :: evs0, ?_, ?_⟩
          · simp [h1]
          · simp [isStreamEchoEvent, h2]
        · intro t2 iterText2 calls2 ti2 to2 sr2 hfin
          obtain ⟨h1, h2⟩ := hr.2 t2 iterText2 calls2 ti2 to2 sr2 hfin
          constructor
          · rw [h1]
            simp [tokenConcat]
          · simp [isStreamEchoEvent, h2]
      | done ti2 tout2 sr2 =>
        constructor
        · intro hc
          exfalso
          simp [streamPhase, hcan] at hc
        · intro t3 iterText3 calls3 ti3 to3 sr3 hfin
          simp [streamPhase, hcan] at hfin ⊢
          rw [hfin.2.1]
          simp [tokenConcat]
      | error msg =>
        constructor
        · intro hc
          exfalso
          simp [streamPhase, hcan] at hc
        · intro t3 iterText3 calls3 ti3 to3 sr3 hfin
          exfalso
          simp [streamPhase, hcan] at hfin

end Agent

namespace Agent

theorem toolPhase_spec (reg : ToolRegistry) (cancelAt : Option Nat)
    (fullText : List Char) (totTi totTo : Option Int) (calls : List ToolCall) :
    ∀ (t : Nat) (approvals : List ApprovalDecision) (auto : List (List Char))
      (results : List ToolResult),
    tokenConcat
      (toolPhase reg cancelAt fullText totTi totTo t calls approvals auto results).1 = [] ∧
    ((toolPhase reg cancelAt fullText totTi totTo t calls approvals auto results).2 =
        ToolRes.cancelled →
      (toolPhase reg cancelAt fullText totTi totTo t calls approvals auto results).1.getLast? =
        some (Event.done fullText totTi totTo)) := by
  induction calls with
  | nil =>
    intro t approvals auto results
    constructor
    · rfl
    · intro hc
      exfalso
      simp [toolPhase] at hc
  | cons call rest ih =>
    intro t approvals auto results
    by_cases hna : (reg.requiresApproval call.name && !(auto.contains call.name)) = true
    · by_cases hcan : cancelledAt cancelAt t = true
      · have hrw : toolPhase reg cancelAt fullText totTi totTo t (call :: rest)
            approvals auto results =
            ([Event.awaitingApproval call, Event.done fullText totTi totTo],
             ToolRes.cancelled) := by
          simp only [toolPhase]
          rw [if_pos hna, if_pos hcan]
        rw [hrw]
        exact ⟨rfl, fun _ => rfl⟩
      · cases approvals with
        | nil =>
          have hrw : toolPhase reg cancelAt fullText totTi totTo t (call :: rest)
              [] auto results =
              ([Event.awaitingApproval call, Event.error "Approval channel closed".data],
               ToolRes.channelClosed) := by
            simp only [toolPhase]
            rw [if_pos hna, if_neg hcan]
          rw [hrw]
          refine ⟨rfl, ?_⟩
          intro hc
          exact absurd hc (by simp)
        | cons d ds =>
          cases d with
          | deny =>
            have hrw : toolPhase reg cancelAt fullText totTi totTo t (call :: rest)
                (ApprovalDecision.deny :: ds) auto results =
                (Event.awaitingApproval call ::
                  (toolPhase reg cancelAt fullText totTi totTo (t + 1) rest ds auto
                    (results ++ [⟨call.id, "Tool call denied by user".data, true⟩])).1,
                 (toolPhase reg cancelAt fullText totTi totTo (t + 1) rest ds auto
                    (results ++ [⟨call.id, "Tool call denied by user".data, true⟩])).2) := by
              simp only [toolPhase]
              rw [if_pos hna, if_neg hcan]
            rw [hrw]
            have hr := ih (t + 1) ds auto
              (results ++ [⟨call.id, "Tool call denied by user".data, true⟩])
            refine ⟨by simp [tokenConcat, hr.1], ?_⟩
            intro hc
            have h2 := hr.2 hc
            cases hl : (toolPhase reg cancelAt fullText totTi totTo (t + 1) rest ds auto
                (results ++ [⟨call.id, "Tool call denied by user".data, true⟩])).1 with
            | nil => rw [hl] at h2; simp at h2
            | cons x xs =>
              rw [hl] at h2
              simpa using h2
          | allowAlways =>
            have hrw : toolPhase reg cancelAt fullText totTi totTo t (call :: rest)
                (ApprovalDecision.allowAlways :: ds) auto results =
                (Event.awaitingApproval call :: Event.toolExecuting call.id call.name ::
                  Event.toolCompleted call.id (reg.execute call) 0 ::
                  (toolPhase reg cancelAt fullText totTi totTo (t + 1) rest ds
                    (insertName auto call.name) (results ++ [reg.execute call])).1,
                 (toolPhase reg cancelAt fullText totTi totTo (t + 1) rest ds
                    (insertName auto call.name) (results ++ [reg.execute call])).2) := by
              simp only [toolPhase]
              rw [if_pos hna, if_neg hcan]
            rw [hrw]
            have hr := ih (t + 1) ds (insertName auto call.name)
              (results ++ [reg.execute call])
            refine ⟨by simp [tokenConcat, hr.1], ?_⟩
            intro hc
            have h2 := hr.2 hc
            cases hl : (toolPhase reg cancelAt fullText totTi totTo (t + 1) rest ds
                (insertName auto call.name) (results ++ [reg.execute call])).1 with
            | nil => rw [hl] at h2; simp at h2
            | cons x xs =>
              rw [hl] at h2
              simpa using h2
          | allow =>
            have hrw : toolPhase reg cancelAt fullText totTi totTo t (call :: rest)
                (ApprovalDecision.allow :: ds) auto results =
                (Event.awaitingApproval call :: Event.toolExecuting call.id call.name ::
                  Event.toolCompleted call.id (reg.execute call) 0 ::
                  (toolPhase reg cancelAt fullText totTi totTo (t + 1) rest ds auto
                    (results ++ [reg.execute call])).1,
                 (toolPhase reg cancelAt fullText totTi totTo (t + 1) rest ds auto
                    (results ++ [reg.execute call])).2) := by
              simp only [toolPhase]
              rw [if_pos hna, if_neg hcan]
            rw [hrw]
            have hr := ih (t + 1) ds auto (results ++ [reg.execute call])
            refine ⟨by simp [tokenConcat, hr.1], ?_⟩
            intro hc
            have h2 := hr.2 hc
            cases hl : (toolPhase reg cancelAt fullText totTi totTo (t + 1) rest ds auto
                (results ++ [reg.execute call])).1 with
            | nil => rw [hl] at h2; simp at h2
            | cons x xs =>
              rw [hl] at h2
              simpa using h2
    · have hrw : toolPhase reg cancelAt fullText totTi totTo t (call :: rest)
          approvals auto results =
          (Event.toolExecuting call.id call.name ::
            Event.toolCompleted call.id (reg.execute call) 0 ::
            (toolPhase reg cancelAt fullText totTi totTo t rest approvals auto
              (results ++ [reg.execute call])).1,
           (toolPhase reg cancelAt fullText totTi totTo t rest approvals auto
              (results ++ [reg.execute call])).2) := by
        simp only [toolPhase]
        rw [if_neg hna]
      rw [hrw]
      have hr := ih t approvals auto (results ++ [reg.execute call])
      refine ⟨by simp [tokenConcat, hr.1], ?_⟩
      intro hc
      have h2 := hr.2 hc
      cases hl : (toolPhase reg cancelAt fullText totTi totTo t rest approvals auto
          (results ++ [reg.execute call])).1 with
      | nil => rw [hl] at h2; simp at h2
      | cons x xs =>
        rw [hl] at h2
        simpa using h2

end Agent

namespace Agent

theorem loopGo_spec (p : Params) :
    ∀ (fuel iter t : Nat) (fullText : List Char) (totTi totTo : Option Int)
      (approvals : List ApprovalDecision) (auto : List (List Char)),
    ((loopGo p fuel iter t fullText totTi totTo approvals auto).exit =
        ExitCause.cancelledAtLoopStart →
      (loopGo p fuel iter t fullText totTi totTo approvals auto).events.getLast? =
        some (Event.error "Cancelled".data)) ∧
    ((loopGo p fuel iter t fullText totTi totTo approvals auto).exit =
        ExitCause.iterationLimit →
      (loopGo p fuel iter t fullText totTi totTo approvals auto).events.getLast? =
        some (Event.error ("Reached maximum iterations (".data ++
          Nat.toDigits 10 p.maxIterations ++ ")".data))) ∧
    ((loopGo p fuel iter t fullText totTi totTo approvals auto).exit =
        ExitCause.doneNormally ∨
     (loopGo p fuel iter t fullText totTi totTo approvals auto).exit =
        ExitCause.cancelledAtApproval →
      ∃ ti tko,
        (loopGo p fuel iter t fullText totTi totTo approvals auto).events.getLast? =
          some (Event.done
            (fullText ++
              tokenConcat (loopGo p fuel iter t fullText totTi totTo approvals auto).events)
            ti tko)) ∧
    ((loopGo p fuel iter t fullText totTi totTo approvals auto).exit =
        ExitCause.cancelledMidStream →
      ∃ evsPast evsCur ti tko,
        (loopGo p fuel iter t fullText totTi totTo approvals auto).events =
          evsPast ++ evsCur ++ [Event.done (fullText ++ tokenConcat evsPast) ti tko] ∧
        evsCur.all isStreamEchoEvent = true) := by
  intro fuel
  induction fuel with
  | zero =>
    intro iter t fullText totTi totTo approvals auto
    by_cases hcan : cancelledAt p.cancelAt t = true
    · have hrw : loopGo p 0 iter t fullText totTi totTo approvals auto =
          ⟨[Event.error "Cancelled".data], 0, ExitCause.cancelledAtLoopStart⟩ := by
        simp only [loopGo]
        rw [if_pos hcan]
      rw [hrw]
      refine ⟨fun _ => rfl, fun h => ?_, fun h => ?_, fun h => ?_⟩
      · simp at h
      · rcases h with h | h <;> simp at h
      · simp at h
    · have hrw : loopGo p 0 iter t fullText totTi totTo approvals auto =
          ⟨[Event.error ("Reached maximum iterations (".data ++
            Nat.toDigits 10 p.maxIterations ++ ")".data)], 0,
           ExitCause.iterationLimit⟩ := by
        simp only [loopGo]
        rw [if_neg hcan]
      rw [hrw]
      refine ⟨fun h => ?_, fun _ => rfl, fun h => ?_, fun h => ?_⟩
      · simp at h
      · rcases h with h | h <;> simp at h
      · simp at h
  | succ fuel ih =>
    intro iter t fullText totTi totTo approvals auto
    by_cases hcan : cancelledAt p.cancelAt t = true
    · have hrw : loopGo p (fuel + 1) iter t fullText totTi totTo approvals auto =
          ⟨[Event.error "Cancelled".data], 0, ExitCause.cancelledAtLoopStart⟩ := by
        simp only [loopGo]
        rw [if_pos hcan]
      rw [hrw]
      refine ⟨fun _ => rfl, fun h => ?_, fun h => ?_, fun h => ?_⟩
      · simp at h
      · rcases h with h | h <;> simp at h
      · simp at h
    · rcases hsp : streamPhase p.cancelAt fullText totTi totTo (t + 1) (p.streams iter)
          [] [] none none none with ⟨evs1, sres⟩
      have hS := streamPhase_spec p.cancelAt fullText totTi totTo (p.streams iter)
        (t + 1) [] [] none none none
      rw [hsp] at hS
      simp only at hS
      cases sres with
      | cancelled =>
        have hrw : loopGo p (fuel + 1) iter t fullText totTi totTo approvals auto =
            ⟨evs1, 1, ExitCause.cancelledMidStream⟩ := by
          simp only [loopGo]
          rw [if_neg hcan, hsp]
        rw [hrw]
        refine ⟨?_, ?_, ?_, fun _ => ?_⟩ <;> try intro h
        · simp at h
        · simp at h
        · rcases h with h | h <;> simp at h
        · obtain ⟨evs0, h1, h2⟩ := hS.1 rfl
          refine ⟨[], evs0, totTi, totTo, ?_, h2⟩
          simpa [tokenConcat] using h1
      | errored =>
        have hrw : loopGo p (fuel + 1) iter t fullText totTi totTo approvals auto =
            ⟨evs1, 1, ExitCause.streamErrored⟩ := by
          simp only [loopGo]
          rw [if_neg hcan, hsp]
        rw [hrw]
        refine ⟨?_, ?_, ?_, ?_⟩ <;> intro h
        · simp at h
        · simp at h
        · rcases h with h | h <;> simp at h
        · simp at h
      | finished t2 iterText calls ti tout sr =>
        obtain ⟨hIter, hEcho⟩ := hS.2 t2 iterText calls ti tout sr rfl
        rw [List.nil_append] at hIter
        by_cases hdone : (calls.isEmpty || !(sr == some StopReason.toolUse)) = true
        · have hrw : loopGo p (fuel + 1) iter t fullText totTi totTo approvals auto =
              ⟨evs1 ++ [Event.done (fullText ++ iterText) (accumTokens totTi ti)
                (accumTokens totTo tout)], 1, ExitCause.doneNormally⟩ := by
            simp only [loopGo]
            rw [if_neg hcan, hsp]
            simp only []
            rw [if_pos hdone]
          rw [hrw]
          refine ⟨?_, ?_, fun _ => ?_, ?_⟩ <;> try intro h
          · simp at h
          · simp at h
          · refine ⟨accumTokens totTi ti, accumTokens totTo tout, ?_⟩
            rw [List.getLast?_concat]
            rw [tokenConcat_append, hIter]
            simp [tokenConcat]
          · simp at h
        · rcases htp : toolPhase p.tools p.cancelAt (fullText ++ iterText)
              (accumTokens totTi ti) (accumTokens totTo tout) t2 calls approvals auto []
            with ⟨evs2, tres⟩
          have hT := toolPhase_spec p.tools p.cancelAt (fullText ++ iterText)
            (accumTokens totTi ti) (accumTokens totTo tout) calls t2 approvals auto []
          rw [htp] at hT
          simp only at hT
          cases tres with
          | cancelled =>
            have hrw : loopGo p (fuel + 1) iter t fullText totTi totTo approvals auto =
                ⟨evs1 ++ evs2, 1, ExitCause.cancelledAtApproval⟩ := by
              simp only [loopGo]
              rw [if_neg hcan, hsp]
              simp only []
              rw [if_neg hdone, htp]
            rw [hrw]
            refine ⟨?_, ?_, fun _ => ?_, ?_⟩ <;> try intro h
            · simp at h
            · simp at h
            · refine ⟨accumTokens totTi ti, accumTokens totTo tout, ?_⟩
              rw [getLast?_append_some (hT.2 rfl)]
              rw [tokenConcat_append, hIter, hT.1, List.append_nil]
            · simp at h
          | channelClosed =>
            have hrw : loopGo p (fuel + 1) iter t fullText totTi totTo approvals auto =
                ⟨evs1 ++ evs2, 1, ExitCause.approvalChannelClosed⟩ := by
              simp only [loopGo]
              rw [if_neg hcan, hsp]
              simp only []
              rw [if_neg hdone, htp]
            rw [hrw]
            refine ⟨?_, ?_, ?_, ?_⟩ <;> intro h
            · simp at h
            · simp at h
            · rcases h with h | h <;> simp at h
            · simp at h
          | finished t3 approvals2 auto2 results2 =>
            have hrec := ih (iter + 1) t3 (fullText ++ iterText)
              (accumTokens totTi ti) (accumTokens totTo tout) approvals2 auto2
            have hrw : loopGo p (fuel + 1) iter t fullText totTi totTo approvals auto =
                ⟨evs1 ++ evs2 ++
                  (loopGo p fuel (iter + 1) t3 (fullText ++ iterText)
                    (accumTokens totTi ti) (accumTokens totTo tout) approvals2 auto2).events,
                 1 + (loopGo p fuel (iter + 1) t3 (fullText ++ iterText)
                    (accumTokens totTi ti) (accumTokens totTo tout) approvals2 auto2).requests,
                 (loopGo p fuel (iter + 1) t3 (fullText ++ iterText)
                    (accumTokens totTi ti) (accumTokens totTo tout) approvals2 auto2).exit⟩ := by
              simp only [loopGo]
              rw [if_neg hcan, hsp]
              simp only []
              rw [if_neg hdone, htp]
            rw [hrw]
            simp only []
            refine ⟨?_, ?_, ?_, ?_⟩ <;> intro h
            · have := hrec.1 h
              rw [List.append_assoc]
              exact getLast?_append_some (getLast?_append_some this)
            · have := hrec.2.1 h
              rw [List.append_assoc]
              exact getLast?_append_some (getLast?_append_some this)
            · obtain ⟨ti3, to3, h3⟩ := hrec.2.2.1 h
              refine ⟨ti3, to3, ?_⟩
              rw [List.append_assoc]
              rw [getLast?_append_some (getLast?_append_some h3)]
              rw [tokenConcat_append, tokenConcat_append, hIter, hT.1]
              simp [List.append_assoc]
            · obtain ⟨evsA, evsB, ti3, to3, h3, h4⟩ := hrec.2.2.2 h
              refine ⟨evs1 ++ evs2 ++ evsA, evsB, ti3, to3, ?_, h4⟩
              rw [h3]
              rw [tokenConcat_append, tokenConcat_append, hIter, hT.1]
              simp [List.append_assoc]

end Agent

/-- C1 (corrected): cancellation observed at a *suspension point* ends the run
with a `Done` — at an approval wait it carries exactly the concatenation of
all emitted `TextToken`s; mid-stream it carries the tokens of the completed
iterations only, with the aborted iteration's already-emitted tokens and tool
calls (`evsCur`) preceding it. Cancellation observed at the *loop-start
check*, however, is reported as `Error("Cancelled")`, not `Done`. No event —
in particular no tool execution — follows the terminal event. -/
theorem c1_cancellation_behaviour (p : Agent.Params) :
    ((Agent.runAgentLoop p).exit = Agent.ExitCause.cancelledAtLoopStart →
      (Agent.runAgentLoop p).events.getLast? =
        some (Agent.Event.error "Cancelled".data)) ∧
    ((Agent.runAgentLoop p).exit = Agent.ExitCause.cancelledAtApproval →
      ∃ ti tko, (Agent.runAgentLoop p).events.getLast? =
        some (Agent.Event.done
          (Agent.tokenConcat (Agent.runAgentLoop p).events) ti tko)) ∧
    ((Agent.runAgentLoop p).exit = Agent.ExitCause.cancelledMidStream →
      ∃ evsPast evsCur ti tko,
        (Agent.runAgentLoop p).events =
          evsPast ++ evsCur ++
            [Agent.Event.done (Agent.tokenConcat evsPast) ti tko] ∧
        evsCur.all Agent.isStreamEchoEvent = true) := by
  have h := Agent.loopGo_spec p p.maxIterations 0 0 [] none none p.approvals
    (if p.autoApproveReadTools then
      p.tools.definitionNames.filter (fun n => !(p.tools.requiresApproval n))
     else [])
  have hun : Agent.runAgentLoop p = Agent.loopGo p p.maxIterations 0 0 [] none none
      p.approvals
      (if p.autoApproveReadTools then
        p.tools.definitionNames.filter (fun n => !(p.tools.requiresApproval n))
       else []) := rfl
  rw [hun]
  refine ⟨h.1, ?_, ?_⟩
  · intro hx
    obtain ⟨ti, tko, h3⟩ := h.2.2.1 (Or.inr hx)
    exact ⟨ti, tko, by simpa using h3⟩
  · intro hx
    obtain ⟨evsPast, evsCur, ti, tko, h3, h4⟩ := h.2.2.2 hx
    exact ⟨evsPast, evsCur, ti, tko, by simpa using h3, h4⟩

theorem c1_cancellation_behaviour_witness :
    ((Agent.runAgentLoop cancelAtStartParams).events.getLast? =
      some (Agent.Event.error "Cancelled".data)) ∧
    (∃ ti tko, (Agent.runAgentLoop approvalCancelParams).events.getLast? =
      some (Agent.Event.done
        (Agent.tokenConcat (Agent.runAgentLoop approvalCancelParams).events) ti tko)) ∧
    (∃ evsPast evsCur ti tko,
      (Agent.runAgentLoop midStreamCancelParams).events =
        evsPast ++ evsCur ++
          [Agent.Event.done (Agent.tokenConcat evsPast) ti tko] ∧
      evsCur.all Agent.isStreamEchoEvent = true) :=
  ⟨(c1_cancellation_behaviour cancelAtStartParams).1 rfl,
   (c1_cancellation_behaviour approvalCancelParams).2.1 rfl,
   (c1_cancellation_behaviour midStreamCancelParams).2.2 rfl⟩

/-- C10 (corrected): when the loop ends in a `Done` after normal completion
or an approval-wait cancellation, `full_content` equals the concatenation of
every emitted `TextToken`; after a mid-stream cancellation the final `Done`
instead carries only the completed iterations' tokens, the aborted
iteration's tokens having been emitted but dropped from `full_content`. -/
theorem c10_full_content_concat (p : Agent.Params) :
    ((Agent.runAgentLoop p).exit = Agent.ExitCause.doneNormally ∨
     (Agent.runAgentLoop p).exit = Agent.ExitCause.cancelledAtApproval →
      ∃ ti tko, (Agent.runAgentLoop p).events.getLast? =
        some (Agent.Event.done
          (Agent.tokenConcat (Agent.runAgentLoop p).events) ti tko)) ∧
    ((Agent.runAgentLoop p).exit = Agent.ExitCause.cancelledMidStream →
      ∃ evsPast evsCur ti tko,
        (Agent.runAgentLoop p).events =
          evsPast ++ evsCur ++
            [Agent.Event.done (Agent.tokenConcat evsPast) ti tko] ∧
        evsCur.all Agent.isStreamEchoEvent = true) := by
  have h := Agent.loopGo_spec p p.maxIterations 0 0 [] none none p.approvals
    (if p.autoApproveReadTools then
      p.tools.definitionNames.filter (fun n => !(p.tools.requiresApproval n))
     else [])
  have hun : Agent.runAgentLoop p = Agent.loopGo p p.maxIterations 0 0 [] none none
      p.approvals
      (if p.autoApproveReadTools then
        p.tools.definitionNames.filter (fun n => !(p.tools.requiresApproval n))
       else []) := rfl
  rw [hun]
  refine ⟨?_, ?_⟩
  · intro hx
    obtain ⟨ti, tko, h3⟩ := h.2.2.1 hx
    exact ⟨ti, tko, by simpa using h3⟩
  · intro hx
    obtain ⟨evsPast, evsCur, ti, tko, h3, h4⟩ := h.2.2.2 hx
    exact ⟨evsPast, evsCur, ti, tko, by simpa using h3, h4⟩

theorem c10_full_content_concat_witness :
    (∃ ti tko, (Agent.runAgentLoop normalDoneParams).events.getLast? =
      some (Agent.Event.done
        (Agent.tokenConcat (Agent.runAgentLoop normalDoneParams).events) ti tko)) ∧
    (∃ evsPast evsCur ti tko,
      (Agent.runAgentLoop midStreamCancelParams).events =
        evsPast ++ evsCur ++
          [Agent.Event.done (Agent.tokenConcat evsPast) ti tko] ∧
      evsCur.all Agent.isStreamEchoEvent = true) :=
  ⟨(c10_full_content_concat normalDoneParams).1 (Or.inl rfl),
   (c10_full_content_concat midStreamCancelParams).2 rfl⟩

namespace Agent

theorem stub_streamPhase_endTurn (fullText : List Char) (totTi totTo : Option Int)
    (t : Nat) :
    streamPhase none fullText totTi totTo t
      [StreamEvent.done none none (some StopReason.endTurn)] [] [] none none none =
      ([], StreamRes.finished (t + 1) [] [] none none (some StopReason.endTurn)) := rfl

theorem stub_streamPhase_toolUse (call : ToolCall) (fullText : List Char)
    (totTi totTo : Option Int) (t : Nat) :
    streamPhase none fullText totTi totTo t
      [StreamEvent.toolCallComplete call,
       StreamEvent.done none none (some StopReason.toolUse)] [] [] none none none =
      ([Event.toolCallReceived call],
       StreamRes.finished (t + 2) [] [call] none none (some StopReason.toolUse)) := rfl

theorem stub_toolPhase_noApproval (reg : ToolRegistry) (call : ToolCall)
    (hna : reg.requiresApproval call.name = false) (fullText : List Char)
    (totTi totTo : Option Int) (t : Nat) (auto : List (List Char)) :
    toolPhase reg none fullText totTi totTo t [call] [] auto [] =
      ([Event.toolExecuting call.id call.name,
        Event.toolCompleted call.id (reg.execute call) 0],
       ToolRes.finished t [] auto [reg.execute call]) := by
  simp only [toolPhase]
  rw [if_neg (by rw [hna]; simp)]
  rfl

theorem c4_done_lemma (reg : ToolRegistry) (call : ToolCall)
    (hna : reg.requiresApproval call.name = false) (n maxIter : Nat) :
    ∀ (m fuel iter t : Nat) (fullText : List Char) (totTi totTo : Option Int)
      (auto : List (List Char)),
    iter + m = n → m + 1 ≤ fuel →
    (loopGo (stubParams reg call n maxIter) fuel iter t fullText totTi totTo [] auto).requests
        = m + 1 ∧
    (loopGo (stubParams reg call n maxIter) fuel iter t fullText totTi totTo [] auto).exit
        = ExitCause.doneNormally ∧
    (loopGo (stubParams reg call n maxIter) fuel iter t fullText totTi totTo
        [] auto).events.getLast? = some (Event.done fullText totTi totTo) := by
  intro m
  induction m with
  | zero =>
    intro fuel iter t fullText totTi totTo auto hiter hfuel
    cases fuel with
    | zero => omega
    | succ fuel =>
      have hnlt : ¬ iter < n := by omega
      have hstream : (stubParams reg call n maxIter).streams iter =
          [StreamEvent.done none none (some StopReason.endTurn)] := by
        simp [stubParams, stubStreams, hnlt]
      have hrw : loopGo (stubParams reg call n maxIter) (fuel + 1) iter t fullText
          totTi totTo [] auto =
          ⟨[Event.done (fullText ++ []) totTi totTo], 1, ExitCause.doneNormally⟩ := by
        simp only [loopGo]
        rw [if_neg (by simp [stubParams, cancelledAt]), hstream,
          show (stubParams reg call n maxIter).cancelAt = none from rfl,
          stub_streamPhase_endTurn]
        simp only []
        rw [if_pos (by simp)]
        rfl
      rw [hrw]
      refine ⟨rfl, rfl, ?_⟩
      simp
  | succ m ih =>
    intro fuel iter t fullText totTi totTo auto hiter hfuel
    cases fuel with
    | zero => omega
    | succ fuel =>
      have hlt : iter < n := by omega
      have hstream : (stubParams reg call n maxIter).streams iter =
          [StreamEvent.toolCallComplete call,
           StreamEvent.done none none (some StopReason.toolUse)] := by
        simp [stubParams, stubStreams, hlt]
      have hrw : loopGo (stubParams reg call n maxIter) (fuel + 1) iter t fullText
          totTi totTo [] auto =
          ⟨[Event.toolCallReceived call] ++
            [Event.toolExecuting call.id call.name,
             Event.toolCompleted call.id (reg.execute call) 0] ++
            (loopGo (stubParams reg call n maxIter) fuel (iter + 1) (t + 1 + 2)
              (fullText ++ []) totTi totTo [] auto).events,
           1 + (loopGo (stubParams reg call n maxIter) fuel (iter + 1) (t + 1 + 2)
              (fullText ++ []) totTi totTo [] auto).requests,
           (loopGo (stubParams reg call n maxIter) fuel (iter + 1) (t + 1 + 2)
              (fullText ++ []) totTi totTo [] auto).exit⟩ := by
        simp only [loopGo]
        rw [if_neg (by simp [stubParams, cancelledAt]), hstream,
          show (stubParams reg call n maxIter).cancelAt = none from rfl,
          stub_streamPhase_toolUse]
        simp only []
        rw [if_neg (by simp)]
        rw [show (stubParams reg call n maxIter).tools = reg from rfl]
        rw [stub_toolPhase_noApproval reg call hna]
        rfl
      have hrec := ih fuel (iter + 1) (t + 1 + 2) (fullText ++ []) totTi totTo auto
        (by omega) (by omega)
      rw [hrw]
      simp only [List.append_nil] at hrec ⊢
      refine ⟨by rw [hrec.1]; omega, hrec.2.1, ?_⟩
      exact getLast?_append_some hrec.2.2

theorem c4_limit_lemma (reg : ToolRegistry) (call : ToolCall)
    (hna : reg.requiresApproval call.name = false) (n maxIter : Nat) :
    ∀ (fuel iter t : Nat) (fullText : List Char) (totTi totTo : Option Int)
      (auto : List (List Char)),
    iter + fuel ≤ n →
    (loopGo (stubParams reg call n maxIter) fuel iter t fullText totTi totTo [] auto).exit
        = ExitCause.iterationLimit ∧
    (loopGo (stubParams reg call n maxIter) fuel iter t fullText totTi totTo
        [] auto).events.getLast? =
      some (Event.error ("Reached maximum iterations (".data ++
        Nat.toDigits 10 maxIter ++ ")".data)) := by
  intro fuel
  induction fuel with
  | zero =>
    intro iter t fullText totTi totTo auto hle
    have hrw : loopGo (stubParams reg call n maxIter) 0 iter t fullText
        totTi totTo [] auto =
        ⟨[Event.error ("Reached maximum iterations (".data ++
          Nat.toDigits 10 maxIter ++ ")".data)], 0, ExitCause.iterationLimit⟩ := by
      simp only [loopGo]
      rw [if_neg (by simp [stubParams, cancelledAt])]
      rfl
    rw [hrw]
    exact ⟨rfl, rfl⟩
  | succ fuel ih =>
    intro iter t fullText totTi totTo auto hle
    have hlt : iter < n := by omega
    have hstream : (stubParams reg call n maxIter).streams iter =
        [StreamEvent.toolCallComplete call,
         StreamEvent.done none none (some StopReason.toolUse)] := by
      simp [stubParams, stubStreams, hlt]
    have hrw : loopGo (stubParams reg call n maxIter) (fuel + 1) iter t fullText
        totTi totTo [] auto =
        ⟨[Event.toolCallReceived call] ++
          [Event.toolExecuting call.id call.name,
           Event.toolCompleted call.id (reg.execute call) 0] ++
          (loopGo (stubParams reg call n maxIter) fuel (iter + 1) (t + 1 + 2)
            (fullText ++ []) totTi totTo [] auto).events,
         1 + (loopGo (stubParams reg call n maxIter) fuel (iter + 1) (t + 1 + 2)
            (fullText ++ []) totTi totTo [] auto).requests,
         (loopGo (stubParams reg call n maxIter) fuel (iter + 1) (t + 1 + 2)
            (fullText ++ []) totTi totTo [] auto).exit⟩ := by
      simp only [loopGo]
      rw [if_neg (by simp [stubParams, cancelledAt]), hstream,
        show (stubParams reg call n maxIter).cancelAt = none from rfl,
        stub_streamPhase_toolUse]
      simp only []
      rw [if_neg (by simp)]
      rw [show (stubParams reg call n maxIter).tools = reg from rfl]
      rw [stub_toolPhase_noApproval reg call hna]
      rfl
    have hrec := ih (iter + 1) (t + 1 + 2) (fullText ++ []) totTi totTo auto (by omega)
    rw [hrw]
    exact ⟨hrec.1, getLast?_append_some hrec.2⟩

end Agent

/-- C4: with the N-tool-calls-then-EndTurn provider stub (approval-free
tool), the loop makes exactly `n + 1` provider requests and ends with `Done`
whenever `n + 1 ≤ max_iterations`; and with the limit at or below `n` it ends
with the `Reached maximum iterations (…)` error event instead. -/
theorem c4_bounded_iterations (reg : ToolRegistry) (call : ToolCall) (n maxIter : Nat)
    (hna : reg.requiresApproval call.name = false) :
    (n + 1 ≤ maxIter →
      (Agent.runAgentLoop (Agent.stubParams reg call n maxIter)).requests = n + 1 ∧
      (Agent.runAgentLoop (Agent.stubParams reg call n maxIter)).exit =
        Agent.ExitCause.doneNormally ∧
      (Agent.runAgentLoop (Agent.stubParams reg call n maxIter)).events.getLast? =
        some (Agent.Event.done [] none none)) ∧
    (maxIter ≤ n →
      (Agent.runAgentLoop (Agent.stubParams reg call n maxIter)).exit =
        Agent.ExitCause.iterationLimit ∧
      (Agent.runAgentLoop (Agent.stubParams reg call n maxIter)).events.getLast? =
        some (Agent.Event.error ("Reached maximum iterations (".data ++
          Nat.toDigits 10 maxIter ++ ")".data))) := by
  have hun : Agent.runAgentLoop (Agent.stubParams reg call n maxIter) =
      Agent.loopGo (Agent.stubParams reg call n maxIter) maxIter 0 0 [] none none
        [] [] := rfl
  rw [hun]
  constructor
  · intro hle
    exact Agent.c4_done_lemma reg call hna n maxIter n maxIter 0 0 [] none none []
      (by omega) hle
  · intro hge
    exact Agent.c4_limit_lemma reg call hna n maxIter maxIter 0 0 [] none none []
      (by omega)

theorem c4_bounded_iterations_witness :
    (ToolRegistry.requiresApproval c4Reg c4Call.name = false) ∧
    ((Agent.runAgentLoop (Agent.stubParams c4Reg c4Call 2 5)).requests = 2 + 1 ∧
     (Agent.runAgentLoop (Agent.stubParams c4Reg c4Call 2 5)).exit =
       Agent.ExitCause.doneNormally ∧
     (Agent.runAgentLoop (Agent.stubParams c4Reg c4Call 2 5)).events.getLast? =
       some (Agent.Event.done [] none none)) ∧
    ((Agent.runAgentLoop (Agent.stubParams c4Reg c4Call 5 2)).exit =
       Agent.ExitCause.iterationLimit ∧
     (Agent.runAgentLoop (Agent.stubParams c4Reg c4Call 5 2)).events.getLast? =
       some (Agent.Event.error ("Reached maximum iterations (".data ++
         Nat.toDigits 10 2 ++ ")".data))) :=
  ⟨rfl,
   (c4_bounded_iterations c4Reg c4Call 2 5 rfl).1 (by decide),
   (c4_bounded_iterations c4Reg c4Call 5 2 rfl).2 (by decide)⟩

theorem c3_prepare_regeneration_witness :
    ((Convo.prepareRegeneration c3Db "c".data "a1".data).2 =
      Except.ok ((Convo.prepareRegeneration c3Db "c".data "a1".data).1.listMessages
        "c".data)) ∧
    (Convo.prepareRegeneration (Convo.prepareRegeneration c3Db "c".data "a1".data).1
        "c".data "a1".data =
      ((Convo.prepareRegeneration c3Db "c".data "a1".data).1,
       Except.error "Message not found".data)) :=
  c3_prepare_regeneration_second_application_fails c3Db "c".data "a1".data 1
    ⟨"u1".data, "c".data, Convo.Role.user, "hello".data, 1, true⟩ rfl rfl (by decide)
